import Mathlib

/-!
# bee: a debugging allocator (`src/memory.c`)

A shallow embedding of `memory.c` and a verification of its specification.

Memory model.  Addresses are natural numbers, `0` is `NULL`.
* The six scalar fields of `struct memoryblock` (`size`, `file`, `line`, `func`,
  `next`, `prev`) are kept in a typed store `hdr`, indexed by the address of the
  header.  They change through the field assignments of the source, through the
  copy a moving `realloc` makes, and through the wipe of `MemoryBlock_free`.
* Every other byte (the `mark[8]` field at header offset 48, the payload, the
  trailing guard) lives in the byte store `mem`; `memset` acts on `mem` at the
  absolute addresses it is given, inside or outside the region of the block.
* The `memset` of `MemoryBlock_free` starts at the payload and so ends
  `sizeof(MemoryBlock)` bytes past the region of the block.  It is applied to both
  stores: in the typed store (`memsetHdr`) every byte of an integer or block
  pointer field inside the range becomes 0xCC (little-endian), and a string
  pointer with a byte inside the range no longer points to its string
  (`wildString`).  The three `memset` calls of `MemoryBlock_init` write the
  `mark` field, the payload and the trailing guard of the block itself; they are
  applied to the byte store.
* `live` is the table of the underlying provider (libc `malloc`/`realloc`/`free`):
  the regions currently held, as pairs (address, number of bytes acquired).
  The address the provider answers with is an argument of the operation that
  calls it (`0` for failure).
* `sizeof(MemoryBlock)` is 56 (LP64: 8+8+4(+4 padding)+8+8+8+8), `size_t` is
  64 bits wide, `int` is 32 bits wide.
* The counters are `int`.  `allocSize += size` and `allocSize -= size` mix `int`
  with `size_t`: the sum is computed in `size_t` and converted back to `int`
  (reduction modulo 2^32 into the signed range).  `x++` and `x--` on a counter are
  modelled as `x + 1` and `x - 1`: their overflow is undefined in C, and the
  reachability relations take a step only when the result is an `int`.
* What is written to a stream is kept as the values the `fprintf` calls show:
  an `int` under `%d` as it is, a `size_t` under `%d` as its low 32 bits read as
  an `int` (`toInt32`), an address under `%p` as the address.
* Loops over the registry carry a bound, the number of held regions plus one; a
  well-formed registry is walked to its end within that bound.
-/

namespace Bee

/-! ## Data model -/

/-- Typed view of the scalar fields of `struct memoryblock`. -/
structure MemoryBlock where
  size : Nat
  file : String
  line : Int
  func : String
  next : Nat
  prev : Nat
deriving DecidableEq, Inhabited

/-- Global state of `memory.c` together with the heap it works on: the typed
store of header fields, the byte store, the table of regions held from the
provider, and the six globals of the source. -/
structure State where
  hdr : Nat → MemoryBlock
  mem : Nat → Nat
  live : List (Nat × Nat)
  root : Nat
  allocNum : Int
  allocSize : Int
  mallocs : Int
  reallocs : Int
  frees : Int

/-- One line `*** <ptr>: <file>:<line>:<func>, size=<n>` of `MemoryBlock_print`. -/
structure BlockLine where
  ptr : Nat
  file : String
  line : Int
  func : String
  size : Int
deriving DecidableEq, Inhabited

/-- Diagnostics written just before the process is terminated. -/
inductive Diag where
  | outOfMemory (file : String) (line : Int) (func : String) (size : Int)
  | segfault (file : String) (line : Int) (func : String) (addr : Nat) (byte : Nat)
      (blk : BlockLine)
deriving DecidableEq

/-- Result of a call: it returns a value in a new state, or the process is
terminated (`exit`, `abort`) after a diagnostic, or the call does not return. -/
inductive Outcome (α : Type) where
  | ret (val : α) (st : State)
  | halt (d : Diag)
  | diverge

/-! ## Constants and machine arithmetic -/

def sizeofMemoryBlock : Nat := 56
def init_char : Nat := 0xCC
def mark_char : Nat := 0xCD
def mark_size : Nat := 8

/-- Number of values of `size_t`. -/
def SIZE_RANGE : Nat := 18446744073709551616

/-- Conversion `int → size_t`. -/
def toSizeT (x : Int) : Nat := (x % 18446744073709551616).toNat

/-- Conversion `size_t → int` (also what `%d` shows of a `size_t`). -/
def toInt32 (n : Nat) : Int := ((n : Int) + 2147483648) % 4294967296 - 2147483648

/-- The statement `c += size` for `int c` and `size_t size`. -/
def addAssign (c : Int) (size : Nat) : Int :=
  toInt32 ((toSizeT c + size) % SIZE_RANGE)

/-- The statement `c -= size` for `int c` and `size_t size`. -/
def subAssign (c : Int) (size : Nat) : Int :=
  toInt32 ((toSizeT c + (SIZE_RANGE - size % SIZE_RANGE)) % SIZE_RANGE)

/-- The expression `sizeof(MemoryBlock) + size + mark_size`, evaluated in `size_t`. -/
def regionBytes (size : Nat) : Nat := (sizeofMemoryBlock + size + mark_size) % SIZE_RANGE

/-- The payload address of the block whose header is at `mb`. -/
def toPtr (mb : Nat) : Nat := mb + sizeofMemoryBlock

/-- The header address for a payload pointer.  The subtraction is exact for
every pointer `toPtr` produced; for any other pointer it is undefined in C. -/
def toMemoryBlock (ptr : Nat) : Nat := ptr - sizeofMemoryBlock

/-- The libc call `memset(dst, c, n)` on the byte store. -/
def memset (mem : Nat → Nat) (dst c n : Nat) : Nat → Nat :=
  fun a => if dst ≤ a ∧ a < dst + n then c % 256 else mem a

/-- Assignment to the header at address `a`. -/
def setHdr (hdr : Nat → MemoryBlock) (a : Nat) (b : MemoryBlock) : Nat → MemoryBlock :=
  fun x => if x = a then b else hdr x

/-- The assignment `a->next = v`. -/
def setNext (hdr : Nat → MemoryBlock) (a v : Nat) : Nat → MemoryBlock :=
  setHdr hdr a { hdr a with next := v }

/-- The assignment `a->prev = v`. -/
def setPrev (hdr : Nat → MemoryBlock) (a v : Nat) : Nat → MemoryBlock :=
  setHdr hdr a { hdr a with prev := v }

/-! ## The underlying provider -/

/-- Addresses of the regions currently held from the provider. -/
def liveAddrs (s : State) : List Nat := s.live.map Prod.fst

/-- Number of bytes the provider recorded for the region at `a`. -/
def capOf (live : List (Nat × Nat)) (a : Nat) : Nat := (live.lookup a).getD 0

/-- A successful `malloc(n)` that answered `p`. -/
def provider_malloc (s : State) (n p : Nat) : State :=
  { s with live := (p, n) :: s.live }

/-- A successful `realloc(self, n)` that answered `p`: the region at `self` is
replaced by the region at `p`, whose first `min old n` bytes (header fields
included) are those of the old region. -/
def provider_realloc (s : State) (self n p : Nat) : State :=
  { s with
    live := (p, n) :: s.live.filter (fun r => decide (r.1 ≠ self))
    hdr := setHdr s.hdr p (s.hdr self)
    mem := fun a =>
      if p ≤ a ∧ a < p + min (capOf s.live self) n then s.mem (self + (a - p)) else s.mem a }

/-- The call `free(self)`. -/
def provider_free (s : State) (self : Nat) : State :=
  { s with live := s.live.filter (fun r => decide (r.1 ≠ self)) }

/-! ## `memset` over typed fields -/

/-- Do the `width` bytes at `addr` meet the `n` bytes at `dst`? -/
def hits (addr width dst n : Nat) : Bool :=
  decide (0 < n ∧ addr < dst + n ∧ dst < addr + width)

/-- The low `k` bytes (little-endian) of the field at `addr` holding `val`, after
`memset(dst, c, n)`: a byte inside the range becomes `c`, the others stay. -/
def memsetBytes (val addr dst c n : Nat) : Nat → Nat
  | 0 => 0
  | k + 1 =>
    memsetBytes val addr dst c n k +
      (if dst ≤ addr + k ∧ addr + k < dst + n then c % 256 else val / 256 ^ k % 256) *
        256 ^ k

/-- An 8-byte field (`size_t`, `MemoryBlock*`) at `addr` after `memset(dst, c, n)`. -/
def memsetWord (val addr dst c n : Nat) : Nat :=
  if hits addr 8 dst n then memsetBytes val addr dst c n 8 else val

/-- A 4-byte `int` field at `addr` after `memset(dst, c, n)`. -/
def memsetInt (val : Int) (addr dst c n : Nat) : Int :=
  if hits addr 4 dst n then toInt32 (memsetBytes (val % 4294967296).toNat addr dst c n 4)
  else val

/-- What stands for the string of a `const char*` field once bytes of the pointer
were overwritten: the pointer points to no string any more. -/
def wildString : String := "<overwritten pointer>"

/-- A `const char*` field at `addr` after `memset(dst, c, n)`. -/
def memsetStr (val : String) (addr dst n : Nat) : String :=
  if hits addr 8 dst n then wildString else val

/-- The typed store after `memset(dst, c, n)`: every scalar header field whose
bytes lie in the range is overwritten (offsets of `struct memoryblock` on LP64:
`size` 0, `file` 8, `line` 16, `func` 24, `next` 32, `prev` 40, `mark` 48). -/
def memsetHdr (hdr : Nat → MemoryBlock) (dst c n : Nat) : Nat → MemoryBlock :=
  fun b =>
    { size := memsetWord (hdr b).size b dst c n
      file := memsetStr (hdr b).file (b + 8) dst n
      line := memsetInt (hdr b).line (b + 16) dst c n
      func := memsetStr (hdr b).func (b + 24) dst n
      next := memsetWord (hdr b).next (b + 32) dst c n
      prev := memsetWord (hdr b).prev (b + 40) dst c n }

/-! ## `memory.c` -/

def initState : State :=
  { hdr := fun _ => default
    mem := fun _ => 0
    live := []
    root := 0
    allocNum := 0
    allocSize := 0
    mallocs := 0
    reallocs := 0
    frees := 0 }

def MemoryBlock_init (s : State) (self size : Nat) (file : String) (line : Int)
    (func : String) : State :=
  let hdr := setHdr s.hdr self
    { size := size, file := file, line := line, func := func, next := 0, prev := 0 }
  let m1 := memset s.mem (toPtr self - mark_size) mark_char mark_size
  let m2 := memset m1 (toPtr self + size) mark_char mark_size
  let m3 := memset m2 (toPtr self) init_char size
  { s with hdr := hdr, mem := m3 }

/-- The function `MemoryBlock_malloc`; `p` is the answer of
`malloc(sizeof(MemoryBlock) + size + mark_size)`. -/
def MemoryBlock_malloc (s : State) (size : Nat) (file : String) (line : Int)
    (func : String) (p : Nat) : Outcome Nat :=
  if p = 0 then
    Outcome.halt (Diag.outOfMemory file line func (toInt32 size))
  else
    let s1 := provider_malloc s (regionBytes size) p
    let s2 := MemoryBlock_init s1 p size file line func
    Outcome.ret p { s2 with allocSize := addAssign s2.allocSize size, mallocs := s2.mallocs + 1 }

/-- The function `MemoryBlock_realloc`; `p` is the answer of
`realloc(self, sizeof(MemoryBlock) + size + mark_size)`. -/
def MemoryBlock_realloc (s : State) (self size : Nat) (file : String) (line : Int)
    (func : String) (p : Nat) : Outcome Nat :=
  let s0 := { s with allocSize := subAssign s.allocSize (s.hdr self).size }
  if p = 0 then
    Outcome.halt (Diag.outOfMemory file line func (toInt32 size))
  else
    let s1 := provider_realloc s0 self (regionBytes size) p
    let s2 := MemoryBlock_init s1 p size file line func
    Outcome.ret p
      { s2 with allocSize := addAssign s2.allocSize size, reallocs := s2.reallocs + 1 }

/-- The function `MemoryBlock_free`.  Its `memset` starts at the payload address
and has the length of the whole region, so it ends `sizeof(MemoryBlock)` bytes
past the region: it is applied to the byte store and to the typed store, where
it overwrites the header fields of whatever block lies there. -/
def MemoryBlock_free (s : State) (self : Nat) : State :=
  if self = 0 then s
  else
    let s1 := { s with
      mem := memset s.mem (toPtr self) init_char (regionBytes (s.hdr self).size)
      hdr := memsetHdr s.hdr (toPtr self) init_char (regionBytes (s.hdr self).size) }
    let s2 := { s1 with allocSize := subAssign s1.allocSize (s1.hdr self).size }
    let s3 := provider_free s2 self
    { s3 with frees := s3.frees + 1 }

def MemoryBlock_print (s : State) (self : Nat) : BlockLine :=
  { ptr := toPtr self
    file := (s.hdr self).file
    line := (s.hdr self).line
    func := (s.hdr self).func
    size := toInt32 (s.hdr self).size }

/-- The function `MemoryBlock_checkMark`: `none` when the loop runs to its end,
the report of the first mismatch when it aborts. -/
def MemoryBlock_checkMark (s : State) (self ptr : Nat) (file : String) (line : Int)
    (func : String) : Option Diag :=
  match (List.range mark_size).find? (fun i => decide (s.mem (ptr + i) ≠ mark_char)) with
  | some i =>
    some (Diag.segfault file line func (ptr + i) (s.mem (ptr + i)) (MemoryBlock_print s self))
  | none => none

def MemoryBlock_check (s : State) (self : Nat) (file : String) (line : Int)
    (func : String) : Option Diag :=
  match MemoryBlock_checkMark s self (toPtr self - mark_size) file line func with
  | some d => some d
  | none => MemoryBlock_checkMark s self (toPtr self + (s.hdr self).size) file line func

def insert (s : State) (mb : Nat) : State :=
  if s.root = 0 then
    let h1 := setPrev s.hdr mb 0
    let h2 := setNext h1 mb 0
    { s with root := mb, hdr := h2, allocNum := s.allocNum + 1 }
  else
    let h1 := setNext s.hdr mb s.root
    let h2 := setPrev h1 s.root mb
    { s with hdr := h2, root := mb, allocNum := s.allocNum + 1 }

def insertAfter (s : State) (mb a : Nat) : State :=
  if a = 0 then insert s mb
  else
    let h1 := setPrev s.hdr mb a
    let h2 := setNext h1 mb (h1 a).next
    let h3 := if (h2 a).next ≠ 0 then setPrev h2 (h2 a).next mb else h2
    let h4 := setNext h3 a mb
    { s with hdr := h4, allocNum := s.allocNum + 1 }

def delete (s : State) (mb : Nat) : State :=
  let s1 :=
    if (s.hdr mb).prev ≠ 0 then
      { s with hdr := setNext s.hdr (s.hdr mb).prev (s.hdr mb).next }
    else
      { s with root := (s.hdr mb).next }
  let s2 :=
    if (s1.hdr mb).next ≠ 0 then
      { s1 with hdr := setPrev s1.hdr (s1.hdr mb).next (s1.hdr mb).prev }
    else s1
  { s2 with allocNum := s2.allocNum - 1 }

def Allocator_malloc (s : State) (size : Nat) (file : String) (line : Int)
    (func : String) (p : Nat) : Outcome Nat :=
  match MemoryBlock_malloc s size file line func p with
  | Outcome.ret mb s1 => Outcome.ret (toPtr mb) (insert s1 mb)
  | Outcome.halt d => Outcome.halt d
  | Outcome.diverge => Outcome.diverge

def Allocator_realloc (s : State) (ptr size : Nat) (file : String) (line : Int)
    (func : String) (p : Nat) : Outcome Nat :=
  if ptr ≠ 0 then
    let mb := toMemoryBlock ptr
    let prev := (s.hdr mb).prev
    let s1 := delete s mb
    match MemoryBlock_realloc s1 mb size file line func p with
    | Outcome.ret newmb s2 => Outcome.ret (toPtr newmb) (insertAfter s2 newmb prev)
    | Outcome.halt d => Outcome.halt d
    | Outcome.diverge => Outcome.diverge
  else Allocator_malloc s size file line func p

def Allocator_free (s : State) (ptr : Nat) : State :=
  let mb := toMemoryBlock ptr
  MemoryBlock_free (delete s mb) mb

/-- The loop `for (mb = root; mb; mb = mb->next) MemoryBlock_check(mb, ...)`,
run for at most `fuel` tests of its condition: `none` when the fuel runs out,
`some none` when the loop ends, `some (some d)` when a check aborts. -/
def checkLoop (s : State) (file : String) (line : Int) (func : String) :
    Nat → Nat → Option (Option Diag)
  | 0, _ => none
  | fuel + 1, mb =>
    if mb = 0 then some none
    else
      match MemoryBlock_check s mb file line func with
      | some d => some (some d)
      | none => checkLoop s file line func fuel (s.hdr mb).next

/-- The function `Allocator_check`.  A registry of distinct held blocks has at
most `live.length` blocks, so the loop tests its condition at most
`live.length + 1` times. -/
def Allocator_check (s : State) (file : String) (line : Int) (func : String) :
    Outcome Unit :=
  match checkLoop s file line func (s.live.length + 1) s.root with
  | some none => Outcome.ret () s
  | some (some d) => Outcome.halt d
  | none => Outcome.diverge

/-- The blocks visited by `for (mb = root; mb; mb = mb->next)`, in order. -/
def walk (hdr : Nat → MemoryBlock) : Nat → Nat → Option (List Nat)
  | 0, _ => none
  | fuel + 1, mb =>
    if mb = 0 then some []
    else (walk hdr fuel (hdr mb).next).map (fun l => mb :: l)

/-- The registry: the list reached from `root`. -/
def registry (s : State) : Option (List Nat) :=
  walk s.hdr (s.live.length + 1) s.root

/-! ## Invariants -/

/-- Reduction of an integer into the range of `int`. -/
def wrap32 (x : Int) : Int := (x + 2147483648) % 4294967296 - 2147483648

/-- The predicate `Links hdr p l`: along `l` every block's `next` is its successor (`NULL` for
the last) and every block's `prev` is its predecessor (`p` for the first). -/
def Links (hdr : Nat → MemoryBlock) : Nat → List Nat → Prop
  | _, [] => True
  | p, a :: t => (hdr a).prev = p ∧ (hdr a).next = t.headD 0 ∧ Links hdr a t

/-- Sum of the `size` fields of the blocks of `l`. -/
def sizeSum (hdr : Nat → MemoryBlock) (l : List Nat) : Int :=
  (l.map (fun a => ((hdr a).size : Int))).sum

/-- The list reached from `root` in the store `hdr` is `l`, it is doubly linked,
without `NULL` and without repetition. -/
structure Reg (hdr : Nat → MemoryBlock) (root : Nat) (l : List Nat) : Prop where
  root_eq : root = l.headD 0
  links : Links hdr 0 l
  nonzero : ∀ a ∈ l, a ≠ 0
  nodup : l.Nodup

/-- The registry of `s` is the list `l`, well formed, it holds exactly the
blocks held from the provider, and the live counters agree with it. -/
structure Inv (s : State) (l : List Nat) : Prop where
  reg : Reg s.hdr s.root l
  perm : l.Perm (liveAddrs s)
  num : s.allocNum = (l.length : Int)
  size : s.allocSize = wrap32 (sizeSum s.hdr l)

/-- Largest value of `int`. -/
def INT_MAX : Int := 2147483647

/-- Smallest value of `int`. -/
def INT_MIN : Int := -2147483648

/-- The wipe of `MemoryBlock_free` for the block `mb` reaches the header fields of
no other held block: every other held header ends before the payload of `mb` or
starts after the last wiped byte. -/
def NoClobber (s : State) (mb : Nat) : Prop :=
  ∀ b ∈ liveAddrs s, b ≠ mb →
    b + (sizeofMemoryBlock - mark_size) ≤ toPtr mb ∨
    toPtr mb + regionBytes (s.hdr mb).size ≤ b

/-- States reached from the initial state by `Allocator_malloc`,
`Allocator_realloc` (on `NULL` or on a live pointer) and `Allocator_free` (on a
live pointer).  The provider answers `malloc` with an address it does not hold,
and `realloc` with the old address or one it does not hold.  A step is taken only
when its `++` and `--` on the `int` counters are defined (no overflow) and the
number of bytes it requests, `sizeof(MemoryBlock) + size + mark_size`, is
representable in `size_t`. -/
inductive Reachable : State → Prop
  | init : Reachable initState
  | malloc (s t : State) (size : Nat) (file : String) (line : Int) (func : String)
      (p v : Nat) : Reachable s → s.mallocs < INT_MAX → s.allocNum < INT_MAX →
      sizeofMemoryBlock + size + mark_size < SIZE_RANGE → p ∉ liveAddrs s →
      Allocator_malloc s size file line func p = Outcome.ret v t → Reachable t
  | reallocNull (s t : State) (size : Nat) (file : String) (line : Int) (func : String)
      (p v : Nat) : Reachable s → s.mallocs < INT_MAX → s.allocNum < INT_MAX →
      sizeofMemoryBlock + size + mark_size < SIZE_RANGE → p ∉ liveAddrs s →
      Allocator_realloc s 0 size file line func p = Outcome.ret v t → Reachable t
  | realloc (s t : State) (mb size : Nat) (file : String) (line : Int) (func : String)
      (p v : Nat) : Reachable s → INT_MIN < s.allocNum → s.reallocs < INT_MAX →
      sizeofMemoryBlock + size + mark_size < SIZE_RANGE → mb ∈ liveAddrs s →
      (p = mb ∨ p ∉ liveAddrs s) →
      Allocator_realloc s (toPtr mb) size file line func p = Outcome.ret v t → Reachable t
  | free (s : State) (mb : Nat) : Reachable s → INT_MIN < s.allocNum →
      s.frees < INT_MAX → mb ∈ liveAddrs s →
      Reachable (Allocator_free s (toPtr mb))

/-- The reachable states in whose history no `Allocator_free` overwrote the header
of a held block: as `Reachable`, with `NoClobber` at every release. -/
inductive ReachableClean : State → Prop
  | init : ReachableClean initState
  | malloc (s t : State) (size : Nat) (file : String) (line : Int) (func : String)
      (p v : Nat) : ReachableClean s → s.mallocs < INT_MAX → s.allocNum < INT_MAX →
      sizeofMemoryBlock + size + mark_size < SIZE_RANGE → p ∉ liveAddrs s →
      Allocator_malloc s size file line func p = Outcome.ret v t → ReachableClean t
  | reallocNull (s t : State) (size : Nat) (file : String) (line : Int) (func : String)
      (p v : Nat) : ReachableClean s → s.mallocs < INT_MAX → s.allocNum < INT_MAX →
      sizeofMemoryBlock + size + mark_size < SIZE_RANGE → p ∉ liveAddrs s →
      Allocator_realloc s 0 size file line func p = Outcome.ret v t → ReachableClean t
  | realloc (s t : State) (mb size : Nat) (file : String) (line : Int) (func : String)
      (p v : Nat) : ReachableClean s → INT_MIN < s.allocNum → s.reallocs < INT_MAX →
      sizeofMemoryBlock + size + mark_size < SIZE_RANGE → mb ∈ liveAddrs s →
      (p = mb ∨ p ∉ liveAddrs s) →
      Allocator_realloc s (toPtr mb) size file line func p = Outcome.ret v t →
      ReachableClean t
  | free (s : State) (mb : Nat) : ReachableClean s → INT_MIN < s.allocNum →
      s.frees < INT_MAX → mb ∈ liveAddrs s → NoClobber s mb →
      ReachableClean (Allocator_free s (toPtr mb))

/-- The fields `size`, `file`, `line`, `func` of every header agree in both stores. -/
def SameData (h1 h2 : Nat → MemoryBlock) : Prop :=
  ∀ a, (h1 a).size = (h2 a).size ∧ (h1 a).file = (h2 a).file ∧
    (h1 a).line = (h2 a).line ∧ (h1 a).func = (h2 a).func

/-- Both guard regions of the block at `b` hold the guard byte. -/
def GuardsOK (s : State) (b : Nat) : Prop :=
  ∀ i, i < mark_size →
    s.mem (toPtr b - mark_size + i) = mark_char ∧
    s.mem (toPtr b + (s.hdr b).size + i) = mark_char

/-- A store of the caller: the byte `v` is written at address `a`. -/
def store (s : State) (a v : Nat) : State :=
  { s with mem := fun x => if x = a then v % 256 else s.mem x }

/-- The state in which a call returned (the initial state if it did not return). -/
def Outcome.stateD {α : Type} (o : Outcome α) : State :=
  match o with
  | Outcome.ret _ t => t
  | Outcome.halt _ => initState
  | Outcome.diverge => initState

/-! ## Example states -/

/-- One block of 16 bytes at address 4096. -/
def exOne : State :=
  (Allocator_malloc initState 16 "main.c" 10 "main" 4096).stateD

/-- Two blocks: 16 bytes at 4096, then 32 bytes at 8192. -/
def exTwo : State :=
  (Allocator_malloc exOne 32 "main.c" 11 "main" 8192).stateD

/-- One block of 2^31 bytes at address 4096. -/
def exBig : State :=
  (Allocator_malloc initState 2147483648 "main.c" 7 "main" 4096).stateD

/-- One block of 0 bytes at address 4096. -/
def exZero : State :=
  (Allocator_malloc initState 0 "main.c" 3 "main" 4096).stateD

/-- One block of 1 byte at address 4096 whose payload byte was set to 0x41. -/
def exByte : State :=
  store (Allocator_malloc initState 1 "main.c" 5 "main" 4096).stateD (toPtr 4096) 0x41

/-- One block of 2^32 bytes at address 4096. -/
def exWrap : State :=
  (Allocator_malloc initState 4294967296 "main.c" 8 "main" 4096).stateD

/-- The block of `exByte` after `Allocator_realloc` to 1 byte, left in place. -/
def exByteSame : State :=
  (Allocator_realloc exByte (toPtr 4096) 1 "main.c" 6 "main" 4096).stateD

/-- The block of `exByte` after `Allocator_realloc` to 1 byte, moved to 8192. -/
def exByteMoved : State :=
  (Allocator_realloc exByte (toPtr 4096) 1 "main.c" 6 "main" 8192).stateD

/-- Two blocks of 0 bytes whose regions are adjacent: [4096, 4160) and [4160, 4224). -/
def exAdj : State :=
  (Allocator_malloc exZero 0 "main.c" 4 "main" 4160).stateD

/-- The block of `exZero` after `Allocator_realloc` to 2^31 bytes, left in place. -/
def exZeroGrown : State :=
  (Allocator_realloc exZero (toPtr 4096) 2147483648 "main.c" 9 "main" 4096).stateD

/-- One block requested with 2^64 - 64 bytes at address 4096. -/
def exHuge : State :=
  (Allocator_malloc initState 18446744073709551552 "main.c" 14 "main" 4096).stateD

/-! ## Dump -/

/-- The summary line of `Allocator_dump`: the provenance of the call and the five
counters, each printed with `%d`. -/
structure Summary where
  file : String
  line : Int
  func : String
  num : Int
  size : Int
  mallocs : Int
  reallocs : Int
  frees : Int
deriving DecidableEq

/-- The loop `for (mb = root; mb; mb = mb->next) MemoryBlock_print(mb, stream)`, run
for at most `fuel` tests of its condition: the lines written, `none` when the
fuel runs out. -/
def dumpLoop (s : State) : Nat → Nat → Option (List BlockLine)
  | 0, _ => none
  | fuel + 1, mb =>
    if mb = 0 then some []
    else (dumpLoop s fuel (s.hdr mb).next).map (fun ls => MemoryBlock_print s mb :: ls)

/-- The function `Allocator_dump`: what it writes to `stream` (the summary line,
then one line per block), and the state it returns in. -/
def Allocator_dump (s : State) (file : String) (line : Int) (func : String) :
    Outcome (Summary × List BlockLine) :=
  match dumpLoop s (s.live.length + 1) s.root with
  | some ls =>
    Outcome.ret
      ({ file := file, line := line, func := func, num := s.allocNum, size := s.allocSize,
         mallocs := s.mallocs, reallocs := s.reallocs, frees := s.frees }, ls) s
  | none => Outcome.diverge

/-- One call `Allocator_malloc(size, file, line, func)` together with the address
the provider answers it with. -/
structure Request where
  size : Nat
  file : String
  line : Int
  func : String
  answer : Nat
deriving DecidableEq

/-- A sequence of `Allocator_malloc` calls, one after the other; `none` when one
of them does not return. -/
def allocAll (s : State) : List Request → Option State
  | [] => some s
  | r :: rs =>
    match Allocator_malloc s r.size r.file r.line r.func r.answer with
    | Outcome.ret _ t => allocAll t rs
    | Outcome.halt _ => none
    | Outcome.diverge => none

/-- The line `MemoryBlock_print` writes for the block of a request. -/
def Request.blockLine (r : Request) : BlockLine :=
  { ptr := toPtr r.answer, file := r.file, line := r.line, func := r.func,
    size := toInt32 r.size }

/-- Number of bytes a block with payload size `size` occupies: header, payload and
trailing guard. -/
def blockBytes (size : Nat) : Nat := sizeofMemoryBlock + size + mark_size

/-- The regions of the blocks of `l` are pairwise disjoint: what the provider
guarantees for the regions it has handed out. -/
def Separate (s : State) (l : List Nat) : Prop :=
  ∀ a ∈ l, ∀ b ∈ l, a ≠ b →
    a + blockBytes (s.hdr a).size ≤ b ∨ b + blockBytes (s.hdr b).size ≤ a

/-- The region of `n` bytes at `p` is disjoint from the region of every block of `l`. -/
def FreshRegion (s : State) (l : List Nat) (p n : Nat) : Prop :=
  ∀ b ∈ l, p + n ≤ b ∨ b + blockBytes (s.hdr b).size ≤ p

/-- The three sizes 16, 32, 8 requested in this order. -/
def exRequests : List Request :=
  [{ size := 16, file := "a.c", line := 1, func := "f", answer := 4096 },
   { size := 32, file := "b.c", line := 2, func := "g", answer := 8192 },
   { size := 8, file := "c.c", line := 3, func := "h", answer := 12288 }]

/-- The state after the three requests of `exRequests`. -/
def exThree : State := (allocAll initState exRequests).getD initState

/-- The two-block state after the block at 4096 was reallocated to 64 bytes and
moved to 12288. -/
def exMoved : State :=
  (Allocator_realloc exTwo (toPtr 4096) 64 "main.c" 12 "main" 12288).stateD

/-- The state `exMoved` after the block at 8192 was released. -/
def exMixed : State := Allocator_free exMoved (toPtr 8192)

/-- Two blocks of 16 bytes placed as glibc places them: the first at 4096 (region
[4096, 4176)), the second at 4192 (region [4192, 4272)). -/
def exPair : State :=
  (Allocator_malloc exOne 16 "main.c" 11 "main" 4192).stateD

/-- The state `exPair` after the block at 4096 was released. -/
def exFreed : State := Allocator_free exPair (toPtr 4096)

/-- One block of 16 bytes at 4192. -/
def exUpper : State :=
  (Allocator_malloc initState 16 "main.c" 10 "main" 4192).stateD

/-- The state `exUpper` after 16 more bytes were allocated, at 4096. -/
def exLower : State :=
  (Allocator_malloc exUpper 16 "main.c" 11 "main" 4096).stateD

/-- The state `exLower` after the block at 4096 was released again. -/
def exRound : State := Allocator_free exLower (toPtr 4096)

/-- The state `exBig` after the first byte of the trailing guard of its block was
overwritten with 0. -/
def exBigCorrupt : State := store exBig (toPtr 4096 + 2147483648) 0

/-- The state `exTwo` after the first byte of the trailing guard of the 16-byte
block (payload offset 16) was overwritten with 0x41. -/
def exTwoCorrupt : State := store exTwo (toPtr 4096 + 16) 0x41

/-! ## Machine arithmetic -/

theorem addAssign_eq (c : Int) (n : Nat) : addAssign c n = wrap32 (c + n) := by
  unfold addAssign toInt32 toSizeT wrap32 SIZE_RANGE
  omega

theorem subAssign_eq (c : Int) (n : Nat) : subAssign c n = wrap32 (c - n) := by
  unfold subAssign toInt32 toSizeT wrap32 SIZE_RANGE
  omega

theorem wrap32_add_left (a b : Int) : wrap32 (wrap32 a + b) = wrap32 (a + b) := by
  unfold wrap32; omega

theorem wrap32_sub_left (a b : Int) : wrap32 (wrap32 a - b) = wrap32 (a - b) := by
  unfold wrap32; omega

theorem wrap32_id (a : Int) (h1 : -2147483648 ≤ a) (h2 : a < 2147483648) :
    wrap32 a = a := by
  unfold wrap32; omega

theorem wrap32_range (a : Int) : -2147483648 ≤ wrap32 a ∧ wrap32 a < 2147483648 := by
  unfold wrap32; omega

/-! ## Typed store and links -/

@[simp] theorem setHdr_same (hdr : Nat → MemoryBlock) (a : Nat) (b : MemoryBlock) :
    setHdr hdr a b a = b := by
  simp [setHdr]

theorem setHdr_other (hdr : Nat → MemoryBlock) (a x : Nat) (b : MemoryBlock) (h : x ≠ a) :
    setHdr hdr a b x = hdr x := by
  simp [setHdr, h]

theorem Links_congr (hdr hdr2 : Nat → MemoryBlock) (l : List Nat) :
    ∀ p, (∀ a ∈ l, hdr2 a = hdr a) → Links hdr p l → Links hdr2 p l := by
  induction l with
  | nil => intro p _ _; trivial
  | cons a t ih =>
    intro p h hl
    have ha : hdr2 a = hdr a := h a (List.mem_cons_self a t)
    refine ⟨?_, ?_, ?_⟩
    · rw [ha]; exact hl.1
    · rw [ha]; exact hl.2.1
    · exact ih a (fun x hx => h x (List.mem_cons_of_mem a hx)) hl.2.2

theorem sizeSum_congr (hdr hdr2 : Nat → MemoryBlock) (l : List Nat)
    (h : ∀ a ∈ l, hdr2 a = hdr a) : sizeSum hdr2 l = sizeSum hdr l := by
  unfold sizeSum
  congr 1
  apply List.map_congr_left
  intro a ha
  rw [h a ha]

theorem walk_of_links (hdr : Nat → MemoryBlock) (l : List Nat) :
    ∀ (p fuel : Nat), Links hdr p l → (∀ a ∈ l, a ≠ 0) → l.length < fuel →
      walk hdr fuel (l.headD 0) = some l := by
  induction l with
  | nil =>
    intro p fuel _ _ hf
    cases fuel with
    | zero => simp at hf
    | succ n => simp [walk]
  | cons a t ih =>
    intro p fuel hl hz hf
    cases fuel with
    | zero => simp at hf
    | succ n =>
      have ha : a ≠ 0 := hz a (List.mem_cons_self a t)
      have ht := ih a n hl.2.2 (fun x hx => hz x (List.mem_cons_of_mem a hx))
        (by simp at hf; omega)
      show walk hdr (n + 1) a = some (a :: t)
      rw [walk, if_neg ha, hl.2.1, ht]
      rfl

theorem links_mid (hdr : Nat → MemoryBlock) (mb : Nat) (l1 l2 : List Nat) :
    ∀ p, Links hdr p (l1 ++ mb :: l2) →
      (hdr mb).prev = l1.getLastD p ∧ (hdr mb).next = l2.headD 0 := by
  induction l1 with
  | nil => intro p h; exact ⟨h.1, h.2.1⟩
  | cons a t ih =>
    intro p h
    have h2 := ih a h.2.2
    rw [List.getLastD_cons]
    exact h2

theorem getLastD_mem_or (l : List Nat) : ∀ p, l.getLastD p = p ∨ l.getLastD p ∈ l := by
  induction l with
  | nil => intro p; left; rfl
  | cons a t ih =>
    intro p
    right
    rw [List.getLastD_cons]
    rcases ih a with h | h
    · rw [h]; exact List.mem_cons_self a t
    · exact List.mem_cons_of_mem a h

theorem headD_mem_or (l : List Nat) (d : Nat) : l.headD d = d ∨ l.headD d ∈ l := by
  cases l with
  | nil => left; rfl
  | cons a t => right; exact List.mem_cons_self a t

/-- Unlinking the block between `l1` and `l2`: a store that differs from `hdr`
only in `x->next` and `y->prev`, for `x` the predecessor and `y` the successor. -/
theorem links_remove (hdr h2 : Nat → MemoryBlock) (mb y : Nat) (l1 l2 : List Nat)
    (hy : y = l2.headD 0) :
    ∀ p x, x = l1.getLastD p →
      (∀ a, a ≠ x → a ≠ y → h2 a = hdr a) →
      (x ≠ 0 → (h2 x).next = y ∧ (h2 x).prev = (hdr x).prev) →
      (y ≠ 0 → (h2 y).prev = x ∧ (h2 y).next = (hdr y).next) →
      Links hdr p (l1 ++ mb :: l2) → (p :: (l1 ++ mb :: l2)).Nodup →
      (∀ a ∈ l1 ++ mb :: l2, a ≠ 0) → Links h2 p (l1 ++ l2) := by
  induction l1 with
  | nil =>
    intro p x hx frame _ hyp hl hnd hz
    simp only [List.getLastD_nil] at hx
    subst hx
    simp only [List.nil_append] at hl hnd hz ⊢
    cases l2 with
    | nil => trivial
    | cons b t =>
      simp only [List.headD_cons] at hy
      subst hy
      have hb0 : y ≠ 0 := hz y (by simp)
      have hlb := hl.2.2
      have hnd2 : (x :: mb :: y :: t).Nodup := hnd
      simp only [List.nodup_cons, List.mem_cons, not_or] at hnd2
      refine ⟨(hyp hb0).1, ?_, ?_⟩
      · rw [(hyp hb0).2]; exact hlb.2.1
      · apply Links_congr hdr h2 t y _ hlb.2.2
        intro a ha
        apply frame
        · rintro rfl; exact hnd2.1.2.2 ha
        · rintro rfl; exact hnd2.2.2.1 ha
  | cons a l1t ih =>
    intro p x hx frame hxn hyp hl hnd hz
    rw [List.getLastD_cons] at hx
    have ha0 : a ≠ 0 := hz a (by simp)
    have hnd2 : (p :: a :: (l1t ++ mb :: l2)).Nodup := hnd
    have hnd3 : (a :: (l1t ++ mb :: l2)).Nodup := (List.nodup_cons.mp hnd2).2
    have hrec := ih a x hx frame hxn hyp hl.2.2 hnd3
      (fun b hb => hz b (List.mem_cons_of_mem a hb))
    have hay : a ≠ y := by
      rcases headD_mem_or l2 0 with h | h
      · rw [hy, h]; exact ha0
      · intro e
        rw [← hy, ← e] at h
        have := (List.nodup_cons.mp hnd3).1
        exact this (by simp [h])
    have hprev : (h2 a).prev = p := by
      by_cases hax : a = x
      · rw [hax, (hxn (hax ▸ ha0)).2, ← hax]; exact hl.1
      · rw [frame a hax hay]; exact hl.1
    refine ⟨hprev, ?_, hrec⟩
    cases l1t with
    | nil =>
      simp only [List.getLastD_nil] at hx
      subst hx
      show (h2 x).next = l2.headD 0
      rw [(hxn ha0).1, hy]
    | cons c l1tt =>
      have hxmem : x ∈ c :: l1tt := by
        rcases getLastD_mem_or (c :: l1tt) a with h | h
        · rw [List.getLastD_cons] at h
          rw [List.getLastD_cons] at hx
          rcases getLastD_mem_or l1tt c with h3 | h3
          · rw [hx, h3]; exact List.mem_cons_self c l1tt
          · rw [hx]; exact List.mem_cons_of_mem c h3
        · rw [hx]; exact h
      have hax : a ≠ x := by
        intro e
        rw [← e] at hxmem
        exact (List.nodup_cons.mp hnd3).1 (List.mem_append_left _ hxmem)
      rw [frame a hax hay]
      simpa using hl.2.1

/-- Linking the block `mb` right after `a1`: a store that differs from `hdr` only
at `mb`, in `a1->next` and in `y->prev`, for `y` the old successor of `a1`. -/
theorem links_insert_after (hdr h4 : Nat → MemoryBlock) (mb a1 y : Nat) (l1 l2 : List Nat)
    (hy : y = l2.headD 0)
    (hmb : (h4 mb).prev = a1 ∧ (h4 mb).next = y)
    (hat : (h4 a1).next = mb ∧ (h4 a1).prev = (hdr a1).prev)
    (hyp : y ≠ 0 → (h4 y).prev = mb ∧ (h4 y).next = (hdr y).next)
    (frame : ∀ a, a ≠ mb → a ≠ a1 → a ≠ y → h4 a = hdr a)
    (hfresh : mb ∉ l1 ++ a1 :: l2) :
    ∀ p, Links hdr p (l1 ++ a1 :: l2) → (l1 ++ a1 :: l2).Nodup →
      (∀ a ∈ l1 ++ a1 :: l2, a ≠ 0) → Links h4 p (l1 ++ a1 :: mb :: l2) := by
  induction l1 with
  | nil =>
    intro p hl hnd hz
    simp only [List.nil_append] at hl hnd hz hfresh ⊢
    refine ⟨by rw [hat.2]; exact hl.1, hat.1, hmb.1, by rw [hmb.2, hy], ?_⟩
    cases l2 with
    | nil => trivial
    | cons b t =>
      simp only [List.headD_cons] at hy
      subst hy
      have hb0 : y ≠ 0 := hz y (by simp)
      have hlb := hl.2.2
      simp only [List.nodup_cons, List.mem_cons, not_or] at hnd hfresh
      refine ⟨(hyp hb0).1, ?_, ?_⟩
      · rw [(hyp hb0).2]; exact hlb.2.1
      · apply Links_congr hdr h4 t y _ hlb.2.2
        intro a ha
        apply frame
        · rintro rfl; exact hfresh.2.2 ha
        · rintro rfl; exact hnd.1.2 ha
        · rintro rfl; exact hnd.2.1 ha
  | cons a l1t ih =>
    intro p hl hnd hz
    have ha0 : a ≠ 0 := hz a (by simp)
    have hnd3 : (a :: (l1t ++ a1 :: l2)).Nodup := hnd
    have hanot := (List.nodup_cons.mp hnd3).1
    have hrec := ih (fun h => hfresh (List.mem_cons_of_mem a h)) a hl.2.2
      (List.nodup_cons.mp hnd3).2 (fun b hb => hz b (List.mem_cons_of_mem a hb))
    have hamb : a ≠ mb := by
      rintro rfl; exact hfresh (by simp)
    have haa1 : a ≠ a1 := by
      rintro rfl; exact hanot (by simp)
    have hay : a ≠ y := by
      rcases headD_mem_or l2 0 with h | h
      · rw [hy, h]; exact ha0
      · intro e
        rw [← hy, ← e] at h
        exact hanot (by simp [h])
    have hfa := frame a hamb haa1 hay
    refine ⟨by rw [hfa]; exact hl.1, ?_, hrec⟩
    rw [hfa]
    have := hl.2.1
    cases l1t with
    | nil => exact this
    | cons c l1tt => exact this

/-! ## The list operations on the state -/

theorem delete_hdr (s : State) (mb : Nat) :
    (delete s mb).hdr =
      (if ((if (s.hdr mb).prev ≠ 0 then setNext s.hdr (s.hdr mb).prev (s.hdr mb).next
            else s.hdr) mb).next ≠ 0 then
        setPrev (if (s.hdr mb).prev ≠ 0 then setNext s.hdr (s.hdr mb).prev (s.hdr mb).next
            else s.hdr)
          ((if (s.hdr mb).prev ≠ 0 then setNext s.hdr (s.hdr mb).prev (s.hdr mb).next
            else s.hdr) mb).next
          ((if (s.hdr mb).prev ≠ 0 then setNext s.hdr (s.hdr mb).prev (s.hdr mb).next
            else s.hdr) mb).prev
       else (if (s.hdr mb).prev ≠ 0 then setNext s.hdr (s.hdr mb).prev (s.hdr mb).next
            else s.hdr)) := by
  unfold delete
  by_cases h1 : (s.hdr mb).prev = 0
  · by_cases h2 : (s.hdr mb).next = 0 <;> simp [h1, h2]
  · by_cases h2 : (setNext s.hdr (s.hdr mb).prev (s.hdr mb).next mb).next = 0 <;>
      simp [h1, h2]

theorem delete_root (s : State) (mb : Nat) :
    (delete s mb).root = if (s.hdr mb).prev ≠ 0 then s.root else (s.hdr mb).next := by
  unfold delete
  by_cases h1 : (s.hdr mb).prev = 0
  · by_cases h2 : (s.hdr mb).next = 0 <;> simp [h1, h2]
  · by_cases h2 : (setNext s.hdr (s.hdr mb).prev (s.hdr mb).next mb).next = 0 <;>
      simp [h1, h2]

theorem delete_frame (s : State) (mb : Nat) :
    (delete s mb).mem = s.mem ∧ (delete s mb).live = s.live ∧
    (delete s mb).allocNum = s.allocNum - 1 ∧ (delete s mb).allocSize = s.allocSize ∧
    (delete s mb).mallocs = s.mallocs ∧ (delete s mb).reallocs = s.reallocs ∧
    (delete s mb).frees = s.frees := by
  unfold delete
  by_cases h1 : (s.hdr mb).prev = 0
  · by_cases h2 : (s.hdr mb).next = 0 <;> simp [h1, h2]
  · by_cases h2 : (setNext s.hdr (s.hdr mb).prev (s.hdr mb).next mb).next = 0 <;>
      simp [h1, h2]

theorem insert_frame (s : State) (mb : Nat) :
    (insert s mb).mem = s.mem ∧ (insert s mb).live = s.live ∧
    (insert s mb).allocNum = s.allocNum + 1 ∧ (insert s mb).allocSize = s.allocSize ∧
    (insert s mb).mallocs = s.mallocs ∧ (insert s mb).reallocs = s.reallocs ∧
    (insert s mb).frees = s.frees := by
  unfold insert
  split_ifs <;> simp

theorem insertAfter_frame (s : State) (mb a : Nat) :
    (insertAfter s mb a).mem = s.mem ∧ (insertAfter s mb a).live = s.live ∧
    (insertAfter s mb a).allocNum = s.allocNum + 1 ∧
    (insertAfter s mb a).allocSize = s.allocSize ∧
    (insertAfter s mb a).mallocs = s.mallocs ∧ (insertAfter s mb a).reallocs = s.reallocs ∧
    (insertAfter s mb a).frees = s.frees := by
  unfold insertAfter
  split_ifs
  · exact insert_frame s mb
  · simp

theorem SameData.refl (h : Nat → MemoryBlock) : SameData h h := fun _ => ⟨rfl, rfl, rfl, rfl⟩

theorem SameData.trans (h1 h2 h3 : Nat → MemoryBlock) (a : SameData h1 h2)
    (b : SameData h2 h3) : SameData h1 h3 := fun x =>
  ⟨(a x).1.trans (b x).1, (a x).2.1.trans (b x).2.1, (a x).2.2.1.trans (b x).2.2.1,
    (a x).2.2.2.trans (b x).2.2.2⟩

theorem sameData_setNext (h : Nat → MemoryBlock) (a v : Nat) : SameData (setNext h a v) h := by
  intro x
  by_cases hx : x = a
  · subst hx; simp [setNext, setHdr]
  · simp [setNext, setHdr, hx]

theorem sameData_setPrev (h : Nat → MemoryBlock) (a v : Nat) : SameData (setPrev h a v) h := by
  intro x
  by_cases hx : x = a
  · subst hx; simp [setPrev, setHdr]
  · simp [setPrev, setHdr, hx]

theorem sizeSum_sameData (h1 h2 : Nat → MemoryBlock) (l : List Nat) (h : SameData h1 h2) :
    sizeSum h1 l = sizeSum h2 l := by
  unfold sizeSum
  congr 1
  apply List.map_congr_left
  intro a _
  rw [(h a).1]

theorem delete_sameData (s : State) (mb : Nat) : SameData (delete s mb).hdr s.hdr := by
  rw [delete_hdr]
  split_ifs
  · exact SameData.trans _ _ _ (sameData_setPrev _ _ _) (sameData_setNext _ _ _)
  · exact sameData_setNext _ _ _
  · exact sameData_setPrev _ _ _
  · exact SameData.refl _

theorem insert_sameData (s : State) (mb : Nat) : SameData (insert s mb).hdr s.hdr := by
  unfold insert
  split_ifs
  · exact SameData.trans _ _ _ (sameData_setNext _ _ _) (sameData_setPrev _ _ _)
  · exact SameData.trans _ _ _ (sameData_setPrev _ _ _) (sameData_setNext _ _ _)

theorem sameData_ite_setPrev (c : Prop) [Decidable c] (h : Nat → MemoryBlock) (a v : Nat) :
    SameData (if c then setPrev h a v else h) h := by
  split_ifs
  · exact sameData_setPrev _ _ _
  · exact SameData.refl _

theorem insertAfter_sameData (s : State) (mb a : Nat) :
    SameData (insertAfter s mb a).hdr s.hdr := by
  unfold insertAfter
  by_cases h1 : a = 0
  · rw [if_pos h1]; exact insert_sameData s mb
  · rw [if_neg h1]
    exact SameData.trans _ _ _ (sameData_setNext _ _ _)
      (SameData.trans _ _ _ (sameData_ite_setPrev _ _ _ _)
      (SameData.trans _ _ _ (sameData_setNext _ _ _) (sameData_setPrev _ _ _)))

theorem nodup_zero_cons (l : List Nat) (hz : ∀ a ∈ l, a ≠ 0) (hn : l.Nodup) :
    (0 :: l).Nodup :=
  List.nodup_cons.mpr ⟨fun h => hz 0 h rfl, hn⟩

/-- The store left by the two conditional assignments of `delete`. -/
theorem unlink_store (hdr : Nat → MemoryBlock) (mb x y : Nat)
    (hx : (hdr mb).prev = x) (hy : (hdr mb).next = y) (hxmb : x ≠ mb) (hymb : y ≠ mb)
    (hxy : x ≠ 0 → x ≠ y) :
    (∀ a, a ≠ x → a ≠ y →
      (if ((if (hdr mb).prev ≠ 0 then setNext hdr (hdr mb).prev (hdr mb).next
            else hdr) mb).next ≠ 0 then
        setPrev (if (hdr mb).prev ≠ 0 then setNext hdr (hdr mb).prev (hdr mb).next else hdr)
          ((if (hdr mb).prev ≠ 0 then setNext hdr (hdr mb).prev (hdr mb).next
            else hdr) mb).next
          ((if (hdr mb).prev ≠ 0 then setNext hdr (hdr mb).prev (hdr mb).next
            else hdr) mb).prev
       else (if (hdr mb).prev ≠ 0 then setNext hdr (hdr mb).prev (hdr mb).next
            else hdr)) a = hdr a) ∧
    (x ≠ 0 →
      ((if ((if (hdr mb).prev ≠ 0 then setNext hdr (hdr mb).prev (hdr mb).next
            else hdr) mb).next ≠ 0 then
        setPrev (if (hdr mb).prev ≠ 0 then setNext hdr (hdr mb).prev (hdr mb).next else hdr)
          ((if (hdr mb).prev ≠ 0 then setNext hdr (hdr mb).prev (hdr mb).next
            else hdr) mb).next
          ((if (hdr mb).prev ≠ 0 then setNext hdr (hdr mb).prev (hdr mb).next
            else hdr) mb).prev
       else (if (hdr mb).prev ≠ 0 then setNext hdr (hdr mb).prev (hdr mb).next
            else hdr)) x).next = y ∧
      ((if ((if (hdr mb).prev ≠ 0 then setNext hdr (hdr mb).prev (hdr mb).next
            else hdr) mb).next ≠ 0 then
        setPrev (if (hdr mb).prev ≠ 0 then setNext hdr (hdr mb).prev (hdr mb).next else hdr)
          ((if (hdr mb).prev ≠ 0 then setNext hdr (hdr mb).prev (hdr mb).next
            else hdr) mb).next
          ((if (hdr mb).prev ≠ 0 then setNext hdr (hdr mb).prev (hdr mb).next
            else hdr) mb).prev
       else (if (hdr mb).prev ≠ 0 then setNext hdr (hdr mb).prev (hdr mb).next
            else hdr)) x).prev = (hdr x).prev) ∧
    (y ≠ 0 →
      ((if ((if (hdr mb).prev ≠ 0 then setNext hdr (hdr mb).prev (hdr mb).next
            else hdr) mb).next ≠ 0 then
        setPrev (if (hdr mb).prev ≠ 0 then setNext hdr (hdr mb).prev (hdr mb).next else hdr)
          ((if (hdr mb).prev ≠ 0 then setNext hdr (hdr mb).prev (hdr mb).next
            else hdr) mb).next
          ((if (hdr mb).prev ≠ 0 then setNext hdr (hdr mb).prev (hdr mb).next
            else hdr) mb).prev
       else (if (hdr mb).prev ≠ 0 then setNext hdr (hdr mb).prev (hdr mb).next
            else hdr)) y).prev = x ∧
      ((if ((if (hdr mb).prev ≠ 0 then setNext hdr (hdr mb).prev (hdr mb).next
            else hdr) mb).next ≠ 0 then
        setPrev (if (hdr mb).prev ≠ 0 then setNext hdr (hdr mb).prev (hdr mb).next else hdr)
          ((if (hdr mb).prev ≠ 0 then setNext hdr (hdr mb).prev (hdr mb).next
            else hdr) mb).next
          ((if (hdr mb).prev ≠ 0 then setNext hdr (hdr mb).prev (hdr mb).next
            else hdr) mb).prev
       else (if (hdr mb).prev ≠ 0 then setNext hdr (hdr mb).prev (hdr mb).next
            else hdr)) y).next = (hdr y).next) := by
  rw [hx, hy]
  have hmx : mb ≠ x := fun e => hxmb e.symm
  have hmy : mb ≠ y := fun e => hymb e.symm
  refine ⟨?_, ?_, ?_⟩
  · intro a hax hay
    by_cases c1 : x = 0 <;> by_cases c2 : y = 0 <;>
      simp [c1, c2, setNext, setPrev, setHdr, hax, hay, hmx, hmy, hy, hx]
  · intro hx0
    have hxy2 := hxy hx0
    by_cases c2 : y = 0 <;>
      simp [hx0, c2, setNext, setPrev, setHdr, hxy2, hmx, hmy, hy, hx]
  · intro hy0
    by_cases c1 : x = 0
    · simp [hy0, c1, setNext, setPrev, setHdr, hmx, hmy, hy, hx]
    · have hxy2 := hxy c1
      simp [hy0, c1, setNext, setPrev, setHdr, hmx, hmy, hy, hx, hxy2, Ne.symm hxy2]

theorem reg_delete (s : State) (mb : Nat) (l1 l2 : List Nat)
    (h : Reg s.hdr s.root (l1 ++ mb :: l2)) :
    Reg (delete s mb).hdr (delete s mb).root (l1 ++ l2) ∧
      (s.hdr mb).prev = l1.getLastD 0 ∧ (s.hdr mb).next = l2.headD 0 := by
  obtain ⟨hx, hy⟩ := links_mid s.hdr mb l1 l2 0 h.links
  refine ⟨?_, hx, hy⟩
  have hnd := h.nodup
  have hz := h.nonzero
  have hmb0 : mb ≠ 0 := hz mb (by simp)
  have hxm : l1.getLastD 0 = 0 ∨ l1.getLastD 0 ∈ l1 := getLastD_mem_or l1 0
  have hym : l2.headD 0 = 0 ∨ l2.headD 0 ∈ l2 := headD_mem_or l2 0
  have hnd1 : ∀ a ∈ l1, a ≠ mb ∧ a ∉ l2 := by
    intro a ha
    rw [List.nodup_append] at hnd
    have := hnd.2.2 ha
    constructor
    · rintro rfl; exact this (by simp)
    · intro h2; exact this (by simp [h2])
  have hnd2 : ∀ a ∈ l2, a ≠ mb := by
    intro a ha
    rw [List.nodup_append] at hnd
    have := (List.nodup_cons.mp hnd.2.1).1
    rintro rfl; exact this ha
  have hxmb : l1.getLastD 0 ≠ mb := by
    rcases hxm with e | e
    · rw [e]; exact fun e2 => hmb0 e2.symm
    · exact (hnd1 _ e).1
  have hymb : l2.headD 0 ≠ mb := by
    rcases hym with e | e
    · rw [e]; exact fun e2 => hmb0 e2.symm
    · exact hnd2 _ e
  have hxy : l1.getLastD 0 ≠ 0 → l1.getLastD 0 ≠ l2.headD 0 := by
    intro hx0 e
    rcases hxm with e1 | e1
    · exact hx0 e1
    · rcases hym with e2 | e2
      · exact hx0 (e.trans e2)
      · exact (hnd1 _ e1).2 (e ▸ e2)
  have hl1z : ∀ a ∈ l1, a ≠ 0 := fun a ha => hz a (List.mem_append_left _ ha)
  have hl2z : ∀ a ∈ l2, a ≠ 0 := fun a ha => hz a (List.mem_append_right _ (by simp [ha]))
  constructor
  · -- root
    rw [delete_root, hx, hy]
    cases l1 with
    | nil => simp
    | cons a t =>
      have : (a :: t).getLastD 0 ≠ 0 := by
        rcases hxm with e | e
        · exact fun _ => by
            rcases getLastD_mem_or t a with e3 | e3
            · rw [List.getLastD_cons, e3] at e; exact hl1z a (by simp) e
            · rw [List.getLastD_cons] at e; rw [e] at e3
              exact hl1z 0 (List.mem_cons_of_mem a e3) rfl
        · exact hl1z _ e
      rw [if_pos this]
      have := h.root_eq
      simpa using this
  · -- links
    obtain ⟨f1, f2, f3⟩ := unlink_store s.hdr mb (l1.getLastD 0) (l2.headD 0) hx hy hxmb hymb hxy
    rw [delete_hdr]
    exact links_remove s.hdr _ mb (l2.headD 0) l1 l2 rfl 0 (l1.getLastD 0) rfl f1 f2 f3 h.links
      (nodup_zero_cons _ hz hnd) hz
  · intro a ha
    rw [List.mem_append] at ha
    rcases ha with ha | ha
    · exact hl1z a ha
    · exact hl2z a ha
  · rw [List.nodup_append] at hnd ⊢
    refine ⟨hnd.1, (List.nodup_cons.mp hnd.2.1).2, ?_⟩
    intro a ha1 ha2
    exact hnd.2.2 ha1 (List.mem_cons_of_mem mb ha2)

theorem insert_root (s : State) (mb : Nat) : (insert s mb).root = mb := by
  unfold insert
  split_ifs <;> rfl

theorem reg_insert (s : State) (mb : Nat) (l : List Nat) (h : Reg s.hdr s.root l)
    (hmb0 : mb ≠ 0) (hfresh : mb ∉ l) (hp : (s.hdr mb).prev = 0) :
    Reg (insert s mb).hdr (insert s mb).root (mb :: l) := by
  have hz : ∀ a ∈ mb :: l, a ≠ 0 := by
    intro a ha
    rcases List.mem_cons.mp ha with e | e
    · rw [e]; exact hmb0
    · exact h.nonzero a e
  refine ⟨by rw [insert_root]; rfl, ?_, hz, List.nodup_cons.mpr ⟨hfresh, h.nodup⟩⟩
  cases l with
  | nil =>
    have hr : s.root = 0 := h.root_eq
    unfold insert
    rw [if_pos hr]
    refine ⟨?_, ?_, trivial⟩ <;> simp [setNext, setPrev, setHdr]
  | cons r t =>
    have hr : s.root = r := h.root_eq
    have hr0 : s.root ≠ 0 := by rw [hr]; exact h.nonzero r (by simp)
    have hmr : mb ≠ r := by rintro rfl; exact hfresh (by simp)
    have hrm : r ≠ mb := fun e => hmr e.symm
    have hl := h.links
    have hnd := h.nodup
    unfold insert
    rw [if_neg hr0, hr]
    refine ⟨?_, ?_, ?_, ?_, ?_⟩
    · simp [setNext, setPrev, setHdr, hmr, hp]
    · simp [setNext, setPrev, setHdr, hmr]
    · simp [setNext, setPrev, setHdr, hmr]
    · simp only [setNext, setPrev, setHdr, hrm, if_true, if_false]
      exact hl.2.1
    · apply Links_congr s.hdr _ t r _ hl.2.2
      intro a ha
      have har : a ≠ r := by rintro rfl; exact (List.nodup_cons.mp hnd).1 ha
      have ham : a ≠ mb := by rintro rfl; exact hfresh (List.mem_cons_of_mem r ha)
      simp [setNext, setPrev, setHdr, har, ham]

/-- The store left by the assignments of `insertAfter` for `a1 ≠ NULL`. -/
theorem link_store (hdr : Nat → MemoryBlock) (mb a1 y : Nat) (hy : (hdr a1).next = y)
    (ham : a1 ≠ mb) (hym : y ≠ mb) (hya : y ≠ a1) :
    ((setNext (if (setNext (setPrev hdr mb a1) mb (setPrev hdr mb a1 a1).next a1).next ≠ 0 then
          setPrev (setNext (setPrev hdr mb a1) mb (setPrev hdr mb a1 a1).next)
            (setNext (setPrev hdr mb a1) mb (setPrev hdr mb a1 a1).next a1).next mb
        else setNext (setPrev hdr mb a1) mb (setPrev hdr mb a1 a1).next) a1 mb mb).prev = a1 ∧
     (setNext (if (setNext (setPrev hdr mb a1) mb (setPrev hdr mb a1 a1).next a1).next ≠ 0 then
          setPrev (setNext (setPrev hdr mb a1) mb (setPrev hdr mb a1 a1).next)
            (setNext (setPrev hdr mb a1) mb (setPrev hdr mb a1 a1).next a1).next mb
        else setNext (setPrev hdr mb a1) mb (setPrev hdr mb a1 a1).next) a1 mb mb).next = y) ∧
    ((setNext (if (setNext (setPrev hdr mb a1) mb (setPrev hdr mb a1 a1).next a1).next ≠ 0 then
          setPrev (setNext (setPrev hdr mb a1) mb (setPrev hdr mb a1 a1).next)
            (setNext (setPrev hdr mb a1) mb (setPrev hdr mb a1 a1).next a1).next mb
        else setNext (setPrev hdr mb a1) mb (setPrev hdr mb a1 a1).next) a1 mb a1).next = mb ∧
     (setNext (if (setNext (setPrev hdr mb a1) mb (setPrev hdr mb a1 a1).next a1).next ≠ 0 then
          setPrev (setNext (setPrev hdr mb a1) mb (setPrev hdr mb a1 a1).next)
            (setNext (setPrev hdr mb a1) mb (setPrev hdr mb a1 a1).next a1).next mb
        else setNext (setPrev hdr mb a1) mb (setPrev hdr mb a1 a1).next) a1 mb a1).prev =
        (hdr a1).prev) ∧
    (y ≠ 0 →
     (setNext (if (setNext (setPrev hdr mb a1) mb (setPrev hdr mb a1 a1).next a1).next ≠ 0 then
          setPrev (setNext (setPrev hdr mb a1) mb (setPrev hdr mb a1 a1).next)
            (setNext (setPrev hdr mb a1) mb (setPrev hdr mb a1 a1).next a1).next mb
        else setNext (setPrev hdr mb a1) mb (setPrev hdr mb a1 a1).next) a1 mb y).prev = mb ∧
     (setNext (if (setNext (setPrev hdr mb a1) mb (setPrev hdr mb a1 a1).next a1).next ≠ 0 then
          setPrev (setNext (setPrev hdr mb a1) mb (setPrev hdr mb a1 a1).next)
            (setNext (setPrev hdr mb a1) mb (setPrev hdr mb a1 a1).next a1).next mb
        else setNext (setPrev hdr mb a1) mb (setPrev hdr mb a1 a1).next) a1 mb y).next =
        (hdr y).next) ∧
    (∀ a, a ≠ mb → a ≠ a1 → a ≠ y →
     setNext (if (setNext (setPrev hdr mb a1) mb (setPrev hdr mb a1 a1).next a1).next ≠ 0 then
          setPrev (setNext (setPrev hdr mb a1) mb (setPrev hdr mb a1 a1).next)
            (setNext (setPrev hdr mb a1) mb (setPrev hdr mb a1 a1).next a1).next mb
        else setNext (setPrev hdr mb a1) mb (setPrev hdr mb a1 a1).next) a1 mb a = hdr a) := by
  have hma : mb ≠ a1 := fun e => ham e.symm
  have e1 : (setPrev hdr mb a1 a1).next = y := by
    simp [setPrev, setHdr, ham, hy]
  have e2 : (setNext (setPrev hdr mb a1) mb y a1).next = y := by
    simp [setNext, setPrev, setHdr, ham, hy]
  rw [e1, e2]
  refine ⟨⟨?_, ?_⟩, ⟨?_, ?_⟩, ?_, ?_⟩
  · by_cases c : y = 0 <;> simp [c, setNext, setPrev, setHdr, hma, ham, hym, Ne.symm hym]
  · by_cases c : y = 0 <;> simp [c, setNext, setPrev, setHdr, hma, ham, hym, Ne.symm hym]
  · by_cases c : y = 0 <;> simp [c, setNext, setPrev, setHdr, hma, ham, hym, Ne.symm hym]
  · by_cases c : y = 0 <;>
      simp [c, setNext, setPrev, setHdr, hma, ham, hym, Ne.symm hym, hya, Ne.symm hya]
  · intro c
    simp [c, setNext, setPrev, setHdr, hma, ham, hym, Ne.symm hym, hya, Ne.symm hya]
  · intro a h1 h2 h3
    by_cases c : y = 0 <;>
      simp [c, setNext, setPrev, setHdr, h1, h2, h3]

theorem reg_insertAfter (s : State) (mb : Nat) (l1 l2 : List Nat)
    (h : Reg s.hdr s.root (l1 ++ l2)) (hmb0 : mb ≠ 0) (hfresh : mb ∉ l1 ++ l2)
    (hp : (s.hdr mb).prev = 0) :
    Reg (insertAfter s mb (l1.getLastD 0)).hdr (insertAfter s mb (l1.getLastD 0)).root
      (l1 ++ mb :: l2) := by
  rcases List.eq_nil_or_concat l1 with e | ⟨l0, a1, e⟩
  · subst e
    simp only [List.getLastD_nil, List.nil_append] at h hfresh ⊢
    unfold insertAfter
    rw [if_pos rfl]
    exact reg_insert s mb l2 h hmb0 hfresh hp
  · subst e
    rw [List.concat_eq_append] at h hfresh ⊢
    rw [List.getLastD_concat]
    have hl : l0 ++ [a1] ++ l2 = l0 ++ a1 :: l2 := by simp
    have hl2 : l0 ++ [a1] ++ mb :: l2 = l0 ++ a1 :: mb :: l2 := by simp
    rw [hl] at h hfresh
    rw [hl2]
    have ha0 : a1 ≠ 0 := h.nonzero a1 (by simp)
    have ham : a1 ≠ mb := by rintro rfl; exact hfresh (by simp)
    obtain ⟨_, hy⟩ := links_mid s.hdr a1 l0 l2 0 h.links
    have hnd := h.nodup
    have hym : l2.headD 0 ≠ mb := by
      rcases headD_mem_or l2 0 with c | c
      · rw [c]; exact fun e => hmb0 e.symm
      · intro e; rw [e] at c; exact hfresh (by simp [c])
    have hya : l2.headD 0 ≠ a1 := by
      rcases headD_mem_or l2 0 with c | c
      · rw [c]; exact fun e => ha0 e.symm
      · intro e; rw [e] at c
        rw [List.nodup_append] at hnd
        exact (List.nodup_cons.mp hnd.2.1).1 c
    obtain ⟨g1, g2, g3, g4⟩ := link_store s.hdr mb a1 (l2.headD 0) hy ham hym hya
    have hroot : (insertAfter s mb a1).root = s.root := by
      unfold insertAfter
      rw [if_neg ha0]
    refine ⟨?_, ?_, ?_, ?_⟩
    · rw [hroot, h.root_eq]
      cases l0 <;> rfl
    · unfold insertAfter
      rw [if_neg ha0]
      exact links_insert_after s.hdr _ mb a1 (l2.headD 0) l0 l2 rfl g1 g2 g3 g4 hfresh 0
        h.links hnd h.nonzero
    · intro a ha
      simp only [List.mem_append, List.mem_cons] at ha
      rcases ha with c | c | c | c
      · exact h.nonzero a (by simp [c])
      · rw [c]; exact ha0
      · rw [c]; exact hmb0
      · exact h.nonzero a (by simp [c])
    · have hp2 : (l0 ++ a1 :: mb :: l2).Perm (mb :: (l0 ++ a1 :: l2)) := by
        have := @List.perm_middle _ mb (l0 ++ [a1]) l2
        simpa using this
      rw [hp2.nodup_iff]
      exact List.nodup_cons.mpr ⟨hfresh, hnd⟩

/-! ## The provider table -/

theorem map_fst_filter (live : List (Nat × Nat)) (mb : Nat) :
    (live.filter (fun r => decide (r.1 ≠ mb))).map Prod.fst =
      (live.map Prod.fst).filter (fun a => decide (a ≠ mb)) := by
  induction live with
  | nil => rfl
  | cons r t ih =>
    by_cases h : r.1 = mb
    · rw [List.filter_cons, List.map_cons, List.filter_cons]
      simp only [h, ne_eq, not_true_eq_false, decide_False, Bool.false_eq_true, if_false]
      exact ih
    · rw [List.filter_cons, List.map_cons, List.filter_cons]
      simp only [h, ne_eq, not_false_eq_true, decide_True, if_true, List.map_cons]
      rw [ih]

theorem filter_ne_middle (l1 l2 : List Nat) (mb : Nat) (hnd : (l1 ++ mb :: l2).Nodup) :
    (l1 ++ mb :: l2).filter (fun a => decide (a ≠ mb)) = l1 ++ l2 := by
  rw [List.nodup_append] at hnd
  have h1 : ∀ a ∈ l1, a ≠ mb := by
    intro a ha e
    exact hnd.2.2 ha (by simp [e])
  have h2 : ∀ a ∈ l2, a ≠ mb := by
    intro a ha e
    exact (List.nodup_cons.mp hnd.2.1).1 (e ▸ ha)
  rw [List.filter_append, List.filter_cons]
  simp only [ne_eq, not_true_eq_false, decide_False, Bool.false_eq_true, if_false]
  congr 1
  · exact List.filter_eq_self.mpr (fun a ha => by simp [h1 a ha])
  · exact List.filter_eq_self.mpr (fun a ha => by simp [h2 a ha])

theorem perm_remove (l1 l2 L : List Nat) (mb : Nat) (hnd : (l1 ++ mb :: l2).Nodup)
    (hp : (l1 ++ mb :: l2).Perm L) :
    (l1 ++ l2).Perm (L.filter (fun a => decide (a ≠ mb))) := by
  have := List.Perm.filter (fun a => decide (a ≠ mb)) hp
  rw [filter_ne_middle l1 l2 mb hnd] at this
  exact this

theorem sizeSum_append (hdr : Nat → MemoryBlock) (l1 l2 : List Nat) :
    sizeSum hdr (l1 ++ l2) = sizeSum hdr l1 + sizeSum hdr l2 := by
  simp [sizeSum]

theorem sizeSum_cons (hdr : Nat → MemoryBlock) (a : Nat) (l : List Nat) :
    sizeSum hdr (a :: l) = ((hdr a).size : Int) + sizeSum hdr l := by
  simp [sizeSum]

theorem toMemoryBlock_toPtr (mb : Nat) : toMemoryBlock (toPtr mb) = mb := by
  simp [toMemoryBlock, toPtr]

theorem toPtr_ne_zero (mb : Nat) : toPtr mb ≠ 0 := by
  simp [toPtr, sizeofMemoryBlock]

theorem reg_congr (hdr hdr2 : Nat → MemoryBlock) (root : Nat) (l : List Nat)
    (h : ∀ a ∈ l, hdr2 a = hdr a) (hr : Reg hdr root l) : Reg hdr2 root l :=
  ⟨hr.root_eq, Links_congr hdr hdr2 l 0 h hr.links, hr.nonzero, hr.nodup⟩

/-! ## The three operations on a well-formed state -/

theorem inv_not_mem (s : State) (l : List Nat) (hinv : Inv s l) (p : Nat)
    (h : p ∉ liveAddrs s) : p ∉ l :=
  fun hp => h (hinv.perm.mem_iff.mp hp)

theorem malloc_spec (s : State) (l : List Nat) (size : Nat) (file : String) (line : Int)
    (func : String) (p : Nat) (hinv : Inv s l) (hp0 : p ≠ 0) (hfresh : p ∉ liveAddrs s) :
    ∃ t, Allocator_malloc s size file line func p = Outcome.ret (toPtr p) t ∧
      Inv t (p :: l) ∧
      ((t.hdr p).size = size ∧ (t.hdr p).file = file ∧ (t.hdr p).line = line ∧
        (t.hdr p).func = func) ∧
      (∀ a, a ≠ p → (t.hdr a).size = (s.hdr a).size ∧ (t.hdr a).file = (s.hdr a).file ∧
        (t.hdr a).line = (s.hdr a).line ∧ (t.hdr a).func = (s.hdr a).func) ∧
      t.allocNum = s.allocNum + 1 ∧ t.allocSize = addAssign s.allocSize size ∧
      t.mallocs = s.mallocs + 1 ∧ t.reallocs = s.reallocs ∧ t.frees = s.frees ∧
      t.live = (p, regionBytes size) :: s.live := by
  have hpl : p ∉ l := inv_not_mem s l hinv p hfresh
  unfold Allocator_malloc MemoryBlock_malloc
  rw [if_neg hp0]
  simp only
  refine ⟨_, rfl, ?_⟩
  generalize hs2 : ({ MemoryBlock_init (provider_malloc s (regionBytes size) p) p size file
      line func with
      allocSize := addAssign (MemoryBlock_init (provider_malloc s (regionBytes size) p) p size
        file line func).allocSize size
      mallocs := (MemoryBlock_init (provider_malloc s (regionBytes size) p) p size
        file line func).mallocs + 1 } : State) = s2
  have e_hdr : s2.hdr = setHdr s.hdr p
      { size := size, file := file, line := line, func := func, next := 0, prev := 0 } := by
    rw [← hs2]; rfl
  have e_root : s2.root = s.root := by rw [← hs2]; rfl
  have e_live : s2.live = (p, regionBytes size) :: s.live := by rw [← hs2]; rfl
  have e_num : s2.allocNum = s.allocNum := by rw [← hs2]; rfl
  have e_size : s2.allocSize = addAssign s.allocSize size := by rw [← hs2]; rfl
  have e_m : s2.mallocs = s.mallocs + 1 := by rw [← hs2]; rfl
  have e_r : s2.reallocs = s.reallocs := by rw [← hs2]; rfl
  have e_f : s2.frees = s.frees := by rw [← hs2]; rfl
  have hreg2 : Reg s2.hdr s2.root l := by
    rw [e_root]
    apply reg_congr s.hdr _ _ _ _ hinv.reg
    intro a ha
    rw [e_hdr]
    exact setHdr_other _ _ _ _ (fun e => hpl (e ▸ ha))
  have hprev : (s2.hdr p).prev = 0 := by rw [e_hdr]; simp
  have hreg := reg_insert s2 p l hreg2 hp0 hpl hprev
  obtain ⟨f1, f2, f3, f4, f5, f6, f7⟩ := insert_frame s2 p
  have hsd := insert_sameData s2 p
  have hdata : (((insert s2 p).hdr p).size = size ∧ ((insert s2 p).hdr p).file = file ∧
      ((insert s2 p).hdr p).line = line ∧ ((insert s2 p).hdr p).func = func) := by
    obtain ⟨d1, d2, d3, d4⟩ := hsd p
    rw [d1, d2, d3, d4, e_hdr]
    simp
  have hother : ∀ a, a ≠ p → ((insert s2 p).hdr a).size = (s.hdr a).size ∧
      ((insert s2 p).hdr a).file = (s.hdr a).file ∧
      ((insert s2 p).hdr a).line = (s.hdr a).line ∧
      ((insert s2 p).hdr a).func = (s.hdr a).func := by
    intro a ha
    obtain ⟨d1, d2, d3, d4⟩ := hsd a
    rw [d1, d2, d3, d4, e_hdr, setHdr_other _ _ _ _ ha]
    exact ⟨rfl, rfl, rfl, rfl⟩
  refine ⟨⟨hreg, ?_, ?_, ?_⟩, hdata, hother, ?_, ?_, ?_, ?_, ?_, ?_⟩
  · show (p :: l).Perm (List.map Prod.fst (insert s2 p).live)
    rw [f2, e_live]
    exact List.Perm.cons p hinv.perm
  · rw [f3, e_num, hinv.num]; simp
  · rw [f4, e_size, addAssign_eq, hinv.size, wrap32_add_left, sizeSum_cons, hdata.1]
    have : sizeSum (insert s2 p).hdr l = sizeSum s.hdr l := by
      unfold sizeSum
      congr 1
      apply List.map_congr_left
      intro a ha
      rw [(hother a (fun e => hpl (e ▸ ha))).1]
    rw [this, add_comm]
  · rw [f3, e_num]
  · rw [f4, e_size]
  · rw [f5, e_m]
  · rw [f6, e_r]
  · rw [f7, e_f]
  · rw [f2, e_live]

theorem hits_false (addr width dst n : Nat) (h : addr + width ≤ dst ∨ dst + n ≤ addr) :
    hits addr width dst n = false := by
  unfold hits
  rw [decide_eq_false_iff_not]
  omega

theorem memsetHdr_out (hdr : Nat → MemoryBlock) (dst c n b : Nat)
    (h : b + (sizeofMemoryBlock - mark_size) ≤ dst ∨ dst + n ≤ b) :
    memsetHdr hdr dst c n b = hdr b := by
  have h2 : b + 48 ≤ dst ∨ dst + n ≤ b := h
  unfold memsetHdr memsetWord memsetInt memsetStr
  rw [hits_false b 8 dst n (by omega), hits_false (b + 8) 8 dst n (by omega),
    hits_false (b + 16) 4 dst n (by omega), hits_false (b + 24) 8 dst n (by omega),
    hits_false (b + 32) 8 dst n (by omega), hits_false (b + 40) 8 dst n (by omega)]
  rfl

theorem memsetHdr_self (hdr : Nat → MemoryBlock) (c n mb : Nat) :
    memsetHdr hdr (toPtr mb) c n mb = hdr mb :=
  memsetHdr_out hdr (toPtr mb) c n mb
    (Or.inl (by simp [toPtr, sizeofMemoryBlock, mark_size]))

theorem free_eq (s : State) (mb : Nat) (hmb0 : mb ≠ 0) :
    Allocator_free s (toPtr mb) =
      { delete s mb with
        mem := memset (delete s mb).mem (toPtr mb) init_char
          (regionBytes ((delete s mb).hdr mb).size)
        hdr := memsetHdr (delete s mb).hdr (toPtr mb) init_char
          (regionBytes ((delete s mb).hdr mb).size)
        allocSize := subAssign (delete s mb).allocSize ((delete s mb).hdr mb).size
        live := (delete s mb).live.filter (fun r => decide (r.1 ≠ mb))
        frees := (delete s mb).frees + 1 } := by
  unfold Allocator_free
  rw [toMemoryBlock_toPtr]
  unfold MemoryBlock_free
  rw [if_neg hmb0]
  simp only [provider_free, memsetHdr_self]

theorem free_frame (s : State) (mb : Nat) (hmb0 : mb ≠ 0) :
    (Allocator_free s (toPtr mb)).hdr =
        memsetHdr (delete s mb).hdr (toPtr mb) init_char (regionBytes (s.hdr mb).size) ∧
      (Allocator_free s (toPtr mb)).root = (delete s mb).root ∧
      (Allocator_free s (toPtr mb)).allocNum = s.allocNum - 1 ∧
      (Allocator_free s (toPtr mb)).allocSize = subAssign s.allocSize (s.hdr mb).size ∧
      (Allocator_free s (toPtr mb)).mallocs = s.mallocs ∧
      (Allocator_free s (toPtr mb)).reallocs = s.reallocs ∧
      (Allocator_free s (toPtr mb)).frees = s.frees + 1 ∧
      (Allocator_free s (toPtr mb)).live = s.live.filter (fun r => decide (r.1 ≠ mb)) ∧
      (Allocator_free s (toPtr mb)).mem =
        memset s.mem (toPtr mb) init_char (regionBytes (s.hdr mb).size) := by
  obtain ⟨f1, f2, f3, f4, f5, f6, f7⟩ := delete_frame s mb
  have hsd := delete_sameData s mb
  rw [free_eq s mb hmb0]
  show _ = _ ∧ _ = _ ∧ _ = _ ∧ _ = _ ∧ _ = _ ∧ _ = _ ∧ _ = _ ∧ _ = _ ∧ _ = _
  rw [f1, f2, f3, f4, f5, f6, f7, (hsd mb).1]
  exact ⟨rfl, rfl, rfl, rfl, rfl, rfl, rfl, rfl, rfl⟩

theorem free_hdr_kept (s : State) (mb : Nat) (hmb0 : mb ≠ 0) (hnc : NoClobber s mb) (a : Nat)
    (ha : a ∈ liveAddrs s) :
    (Allocator_free s (toPtr mb)).hdr a = (delete s mb).hdr a := by
  rw [(free_frame s mb hmb0).1]
  by_cases e : a = mb
  · rw [e]; exact memsetHdr_self _ _ _ _
  · exact memsetHdr_out _ _ _ _ _ (hnc a ha e)

theorem free_spec (s : State) (l1 l2 : List Nat) (mb : Nat)
    (hinv : Inv s (l1 ++ mb :: l2)) (hnc : NoClobber s mb) :
    Inv (Allocator_free s (toPtr mb)) (l1 ++ l2) ∧
      (∀ a ∈ liveAddrs s, ((Allocator_free s (toPtr mb)).hdr a).size = (s.hdr a).size ∧
        ((Allocator_free s (toPtr mb)).hdr a).file = (s.hdr a).file ∧
        ((Allocator_free s (toPtr mb)).hdr a).line = (s.hdr a).line ∧
        ((Allocator_free s (toPtr mb)).hdr a).func = (s.hdr a).func) ∧
      (Allocator_free s (toPtr mb)).allocNum = s.allocNum - 1 ∧
      (Allocator_free s (toPtr mb)).allocSize = subAssign s.allocSize (s.hdr mb).size ∧
      (Allocator_free s (toPtr mb)).mallocs = s.mallocs ∧
      (Allocator_free s (toPtr mb)).reallocs = s.reallocs ∧
      (Allocator_free s (toPtr mb)).frees = s.frees + 1 ∧
      (Allocator_free s (toPtr mb)).live = s.live.filter (fun r => decide (r.1 ≠ mb)) ∧
      (Allocator_free s (toPtr mb)).mem =
        memset s.mem (toPtr mb) init_char (regionBytes (s.hdr mb).size) := by
  have hmb0 : mb ≠ 0 := hinv.reg.nonzero mb (by simp)
  obtain ⟨hreg, _, _⟩ := reg_delete s mb l1 l2 hinv.reg
  have hsd := delete_sameData s mb
  have hkept := free_hdr_kept s mb hmb0 hnc
  obtain ⟨_, e_root, e_num, e_size, e_m, e_r, e_f, e_live, e_mem⟩ := free_frame s mb hmb0
  have hsub : ∀ a ∈ l1 ++ l2, a ∈ liveAddrs s := by
    intro a ha
    apply hinv.perm.mem_iff.mp
    rcases List.mem_append.mp ha with h | h
    · exact List.mem_append_left _ h
    · exact List.mem_append_right _ (List.mem_cons_of_mem _ h)
  refine ⟨⟨?_, ?_, ?_, ?_⟩, ?_, e_num, e_size, e_m, e_r, e_f, e_live, e_mem⟩
  · rw [e_root]
    exact reg_congr (delete s mb).hdr _ _ _ (fun a ha => hkept a (hsub a ha)) hreg
  · show (l1 ++ l2).Perm (List.map Prod.fst (Allocator_free s (toPtr mb)).live)
    rw [e_live, map_fst_filter]
    exact perm_remove l1 l2 _ mb hinv.reg.nodup hinv.perm
  · rw [e_num, hinv.num]
    simp
    omega
  · rw [e_size, subAssign_eq, hinv.size, wrap32_sub_left]
    have e1 : sizeSum (Allocator_free s (toPtr mb)).hdr (l1 ++ l2) = sizeSum s.hdr (l1 ++ l2) := by
      unfold sizeSum
      congr 1
      apply List.map_congr_left
      intro a ha
      rw [hkept a (hsub a ha), (hsd a).1]
    rw [e1, sizeSum_append, sizeSum_append, sizeSum_cons]
    congr 1
    ring
  · intro a ha
    rw [hkept a ha]
    exact hsd a

theorem realloc_spec (s : State) (l1 l2 : List Nat) (mb size : Nat) (file : String)
    (line : Int) (func : String) (p : Nat) (hinv : Inv s (l1 ++ mb :: l2)) (hp0 : p ≠ 0)
    (hp : p = mb ∨ p ∉ liveAddrs s) :
    ∃ t, Allocator_realloc s (toPtr mb) size file line func p = Outcome.ret (toPtr p) t ∧
      Inv t (l1 ++ p :: l2) ∧
      ((t.hdr p).size = size ∧ (t.hdr p).file = file ∧ (t.hdr p).line = line ∧
        (t.hdr p).func = func) ∧
      (∀ a, a ≠ p → (t.hdr a).size = (s.hdr a).size ∧ (t.hdr a).file = (s.hdr a).file ∧
        (t.hdr a).line = (s.hdr a).line ∧ (t.hdr a).func = (s.hdr a).func) ∧
      t.allocNum = s.allocNum ∧
      t.allocSize = addAssign (subAssign s.allocSize (s.hdr mb).size) size ∧
      t.mallocs = s.mallocs ∧ t.reallocs = s.reallocs + 1 ∧ t.frees = s.frees ∧
      t.live = (p, regionBytes size) :: s.live.filter (fun r => decide (r.1 ≠ mb)) := by
  obtain ⟨hreg, hprev, _⟩ := reg_delete s mb l1 l2 hinv.reg
  obtain ⟨f1, f2, f3, f4, f5, f6, f7⟩ := delete_frame s mb
  have hsd := delete_sameData s mb
  have hnd := hinv.reg.nodup
  have hmbl : mb ∉ l1 ++ l2 := by
    rw [List.nodup_append] at hnd
    intro h
    rcases List.mem_append.mp h with c | c
    · exact hnd.2.2 c (by simp)
    · exact (List.nodup_cons.mp hnd.2.1).1 c
  have hpl : p ∉ l1 ++ l2 := by
    rcases hp with e | e
    · rw [e]; exact hmbl
    · intro h
      apply inv_not_mem s _ hinv p e
      rcases List.mem_append.mp h with c | c
      · simp [c]
      · simp [c]
  unfold Allocator_realloc
  rw [if_pos (toPtr_ne_zero mb)]
  simp only [toMemoryBlock_toPtr]
  unfold MemoryBlock_realloc
  rw [if_neg hp0]
  simp only
  refine ⟨_, rfl, ?_⟩
  rw [hprev]
  generalize hs2 : ({ MemoryBlock_init (provider_realloc
        { delete s mb with
          allocSize := subAssign (delete s mb).allocSize ((delete s mb).hdr mb).size }
        mb (regionBytes size) p) p size file line func with
      allocSize := addAssign (MemoryBlock_init (provider_realloc
        { delete s mb with
          allocSize := subAssign (delete s mb).allocSize ((delete s mb).hdr mb).size }
        mb (regionBytes size) p) p size file line func).allocSize size
      reallocs := (MemoryBlock_init (provider_realloc
        { delete s mb with
          allocSize := subAssign (delete s mb).allocSize ((delete s mb).hdr mb).size }
        mb (regionBytes size) p) p size file line func).reallocs + 1 } : State) = s2
  have e_hdr : s2.hdr = setHdr (setHdr (delete s mb).hdr p ((delete s mb).hdr mb)) p
      { size := size, file := file, line := line, func := func, next := 0, prev := 0 } := by
    rw [← hs2]; rfl
  have e_root : s2.root = (delete s mb).root := by rw [← hs2]; rfl
  have e_live : s2.live = (p, regionBytes size) :: s.live.filter (fun r => decide (r.1 ≠ mb)) := by
    rw [← hs2, ← f2]; rfl
  have e_num : s2.allocNum = s.allocNum - 1 := by rw [← hs2, ← f3]; rfl
  have e_size : s2.allocSize = addAssign (subAssign s.allocSize (s.hdr mb).size) size := by
    rw [← hs2, ← f4, ← (hsd mb).1]; rfl
  have e_m : s2.mallocs = s.mallocs := by rw [← hs2, ← f5]; rfl
  have e_r : s2.reallocs = s.reallocs + 1 := by rw [← hs2, ← f6]; rfl
  have e_f : s2.frees = s.frees := by rw [← hs2, ← f7]; rfl
  have hreg2 : Reg s2.hdr s2.root (l1 ++ l2) := by
    rw [e_root]
    apply reg_congr (delete s mb).hdr _ _ _ _ hreg
    intro a ha
    have hap : a ≠ p := fun e => hpl (e ▸ ha)
    rw [e_hdr, setHdr_other _ _ _ _ hap, setHdr_other _ _ _ _ hap]
  have hprev0 : (s2.hdr p).prev = 0 := by rw [e_hdr]; simp
  have hregf := reg_insertAfter s2 p l1 l2 hreg2 hp0 hpl hprev0
  obtain ⟨g1, g2, g3, g4, g5, g6, g7⟩ := insertAfter_frame s2 p (l1.getLastD 0)
  have hsd2 := insertAfter_sameData s2 p (l1.getLastD 0)
  have hdata : (((insertAfter s2 p (l1.getLastD 0)).hdr p).size = size ∧
      ((insertAfter s2 p (l1.getLastD 0)).hdr p).file = file ∧
      ((insertAfter s2 p (l1.getLastD 0)).hdr p).line = line ∧
      ((insertAfter s2 p (l1.getLastD 0)).hdr p).func = func) := by
    obtain ⟨d1, d2, d3, d4⟩ := hsd2 p
    rw [d1, d2, d3, d4, e_hdr]
    simp
  have hother : ∀ a, a ≠ p → ((insertAfter s2 p (l1.getLastD 0)).hdr a).size = (s.hdr a).size ∧
      ((insertAfter s2 p (l1.getLastD 0)).hdr a).file = (s.hdr a).file ∧
      ((insertAfter s2 p (l1.getLastD 0)).hdr a).line = (s.hdr a).line ∧
      ((insertAfter s2 p (l1.getLastD 0)).hdr a).func = (s.hdr a).func := by
    intro a ha
    obtain ⟨d1, d2, d3, d4⟩ := hsd2 a
    rw [d1, d2, d3, d4, e_hdr, setHdr_other _ _ _ _ ha, setHdr_other _ _ _ _ ha]
    exact hsd a
  refine ⟨⟨hregf, ?_, ?_, ?_⟩, hdata, hother, ?_, ?_, ?_, ?_, ?_, ?_⟩
  · show (l1 ++ p :: l2).Perm (List.map Prod.fst (insertAfter s2 p (l1.getLastD 0)).live)
    rw [g2, e_live, List.map_cons, map_fst_filter]
    exact List.perm_middle.trans (List.Perm.cons p (perm_remove l1 l2 _ mb hnd hinv.perm))
  · rw [g3, e_num, hinv.num]
    simp
  · rw [g4, e_size, addAssign_eq, subAssign_eq, hinv.size, wrap32_sub_left, wrap32_add_left,
      sizeSum_append, sizeSum_append, sizeSum_cons, sizeSum_cons, hdata.1]
    have h1 : sizeSum (insertAfter s2 p (l1.getLastD 0)).hdr l1 = sizeSum s.hdr l1 := by
      unfold sizeSum
      congr 1
      apply List.map_congr_left
      intro a ha
      rw [(hother a (fun e => hpl (e ▸ List.mem_append_left _ ha))).1]
    have h2 : sizeSum (insertAfter s2 p (l1.getLastD 0)).hdr l2 = sizeSum s.hdr l2 := by
      unfold sizeSum
      congr 1
      apply List.map_congr_left
      intro a ha
      rw [(hother a (fun e => hpl (e ▸ List.mem_append_right _ ha))).1]
    rw [h1, h2]
    congr 1
    ring
  · rw [g3, e_num]; ring
  · rw [g4, e_size]
  · rw [g5, e_m]
  · rw [g6, e_r]
  · rw [g7, e_f]
  · rw [g2, e_live]

theorem malloc_null (s : State) (size : Nat) (file : String) (line : Int) (func : String) :
    Allocator_malloc s size file line func 0 =
      Outcome.halt (Diag.outOfMemory file line func (toInt32 size)) := by
  simp [Allocator_malloc, MemoryBlock_malloc]

theorem realloc_null_ptr (s : State) (size : Nat) (file : String) (line : Int)
    (func : String) (p : Nat) :
    Allocator_realloc s 0 size file line func p = Allocator_malloc s size file line func p := by
  simp [Allocator_realloc]

theorem realloc_null (s : State) (mb size : Nat) (file : String) (line : Int)
    (func : String) :
    Allocator_realloc s (toPtr mb) size file line func 0 =
      Outcome.halt (Diag.outOfMemory file line func (toInt32 size)) := by
  unfold Allocator_realloc
  rw [if_pos (toPtr_ne_zero mb)]
  simp [MemoryBlock_realloc]

theorem inv_init : Inv initState [] := by
  refine ⟨⟨rfl, trivial, ?_, List.nodup_nil⟩, ?_, rfl, rfl⟩
  · intro a ha; cases ha
  · exact List.Perm.refl _

theorem reachable_of_clean (s : State) (h : ReachableClean s) : Reachable s := by
  induction h with
  | init => exact Reachable.init
  | malloc s t size file line func p v _ g1 g2 g3 hfresh heq ih =>
    exact Reachable.malloc s t size file line func p v ih g1 g2 g3 hfresh heq
  | reallocNull s t size file line func p v _ g1 g2 g3 hfresh heq ih =>
    exact Reachable.reallocNull s t size file line func p v ih g1 g2 g3 hfresh heq
  | realloc s t mb size file line func p v _ g1 g2 g3 hlive hp heq ih =>
    exact Reachable.realloc s t mb size file line func p v ih g1 g2 g3 hlive hp heq
  | free s mb _ g1 g2 hlive _ ih =>
    exact Reachable.free s mb ih g1 g2 hlive

theorem reachable_inv (s : State) (h : ReachableClean s) : ∃ l, Inv s l := by
  induction h with
  | init => exact ⟨[], inv_init⟩
  | malloc s t size file line func p v _ _ _ _ hfresh heq ih =>
    obtain ⟨l, hinv⟩ := ih
    by_cases hp0 : p = 0
    · rw [hp0, malloc_null] at heq
      cases heq
    · obtain ⟨t2, e, hinv2, _⟩ := malloc_spec s l size file line func p hinv hp0 hfresh
      rw [e] at heq
      cases heq
      exact ⟨p :: l, hinv2⟩
  | reallocNull s t size file line func p v _ _ _ _ hfresh heq ih =>
    obtain ⟨l, hinv⟩ := ih
    rw [realloc_null_ptr] at heq
    by_cases hp0 : p = 0
    · rw [hp0, malloc_null] at heq
      cases heq
    · obtain ⟨t2, e, hinv2, _⟩ := malloc_spec s l size file line func p hinv hp0 hfresh
      rw [e] at heq
      cases heq
      exact ⟨p :: l, hinv2⟩
  | realloc s t mb size file line func p v _ _ _ _ hlive hp heq ih =>
    obtain ⟨l, hinv⟩ := ih
    have hmem : mb ∈ l := hinv.perm.mem_iff.mpr hlive
    obtain ⟨l1, l2, hl⟩ := List.append_of_mem hmem
    subst hl
    by_cases hp0 : p = 0
    · rw [hp0, realloc_null] at heq
      cases heq
    · obtain ⟨t2, e, hinv2, _⟩ := realloc_spec s l1 l2 mb size file line func p hinv hp0 hp
      rw [e] at heq
      cases heq
      exact ⟨l1 ++ p :: l2, hinv2⟩
  | free s mb _ _ _ hlive hnc ih =>
    obtain ⟨l, hinv⟩ := ih
    have hmem : mb ∈ l := hinv.perm.mem_iff.mpr hlive
    obtain ⟨l1, l2, hl⟩ := List.append_of_mem hmem
    subst hl
    exact ⟨l1 ++ l2, (free_spec s l1 l2 mb hinv hnc).1⟩

theorem inv_store (s : State) (l : List Nat) (a v : Nat) (h : Inv s l) :
    Inv (store s a v) l :=
  ⟨h.reg, h.perm, h.num, h.size⟩

theorem inv_registry (s : State) (l : List Nat) (hinv : Inv s l) : registry s = some l := by
  unfold registry
  rw [hinv.reg.root_eq]
  apply walk_of_links s.hdr l 0 _ hinv.reg.links hinv.reg.nonzero
  have := hinv.perm.length_eq
  unfold liveAddrs at this
  rw [List.length_map] at this
  omega

theorem links_next_prev (hdr : Nat → MemoryBlock) (l : List Nat) :
    ∀ p, Links hdr p l → ∀ a ∈ l, (hdr a).next ≠ 0 →
      (hdr a).next ∈ l ∧ (hdr (hdr a).next).prev = a := by
  induction l with
  | nil => intro p _ a ha; cases ha
  | cons b t ih =>
    intro p hl a ha hn
    rcases List.mem_cons.mp ha with e | e
    · subst e
      cases t with
      | nil => exact absurd hl.2.1 hn
      | cons c t2 =>
        have e2 : (hdr a).next = c := hl.2.1
        rw [e2]
        exact ⟨by simp, hl.2.2.1⟩
    · obtain ⟨h1, h2⟩ := ih b hl.2.2 a e hn
      exact ⟨List.mem_cons_of_mem b h1, h2⟩

theorem links_last (hdr : Nat → MemoryBlock) (l : List Nat) :
    ∀ p, Links hdr p l → ∀ a, l.getLast? = some a → (hdr a).next = 0 := by
  induction l with
  | nil => intro p _ a ha; cases ha
  | cons b t ih =>
    intro p hl a ha
    cases t with
    | nil =>
      simp at ha
      subst ha
      exact hl.2.1
    | cons c t2 =>
      rw [List.getLast?_cons_cons] at ha
      exact ih b hl.2.2 a ha

/-! ## Example states are reachable -/

theorem clean_exOne : ReachableClean exOne :=
  ReachableClean.malloc initState exOne 16 "main.c" 10 "main" 4096 4152 ReachableClean.init
    (by decide) (by decide) (by decide) (by decide) rfl

theorem clean_exTwo : ReachableClean exTwo :=
  ReachableClean.malloc exOne exTwo 32 "main.c" 11 "main" 8192 8248 clean_exOne
    (by decide) (by decide) (by decide) (by decide) rfl

theorem clean_exMoved : ReachableClean exMoved :=
  ReachableClean.realloc exTwo exMoved 4096 64 "main.c" 12 "main" 12288 12344 clean_exTwo
    (by decide) (by decide) (by decide) (by decide) (by decide) rfl

theorem clean_exMixed : ReachableClean exMixed :=
  ReachableClean.free exMoved 8192 clean_exMoved (by decide) (by decide) (by decide)
    (by unfold NoClobber; decide)

theorem reachable_exOne : Reachable exOne := reachable_of_clean exOne clean_exOne

theorem reachable_exTwo : Reachable exTwo := reachable_of_clean exTwo clean_exTwo

theorem reachable_exMixed : Reachable exMixed := reachable_of_clean exMixed clean_exMixed

theorem reachable_exZero : Reachable exZero :=
  Reachable.malloc initState exZero 0 "main.c" 3 "main" 4096 4152 Reachable.init
    (by decide) (by decide) (by decide) (by decide) rfl

theorem reachable_exPair : Reachable exPair :=
  Reachable.malloc exOne exPair 16 "main.c" 11 "main" 4192 4248 reachable_exOne
    (by decide) (by decide) (by decide) (by decide) rfl

theorem reachable_exFreed : Reachable exFreed :=
  Reachable.free exPair 4096 reachable_exPair (by decide) (by decide) (by decide)

theorem reachable_exUpper : Reachable exUpper :=
  Reachable.malloc initState exUpper 16 "main.c" 10 "main" 4192 4248 Reachable.init
    (by decide) (by decide) (by decide) (by decide) rfl

theorem inv_exOne : Inv exOne [4096] := by
  obtain ⟨t, e, h, _⟩ := malloc_spec initState [] 16 "main.c" 10 "main" 4096 inv_init
    (by decide) (by decide)
  have : t = exOne := by
    have e2 : Allocator_malloc initState 16 "main.c" 10 "main" 4096 = Outcome.ret 4152 exOne :=
      rfl
    rw [e2] at e
    cases e
    rfl
  rw [← this]; exact h

theorem inv_exTwo : Inv exTwo [8192, 4096] := by
  obtain ⟨t, e, h, _⟩ := malloc_spec exOne [4096] 32 "main.c" 11 "main" 8192 inv_exOne
    (by decide) (by decide)
  have : t = exTwo := by
    have e2 : Allocator_malloc exOne 32 "main.c" 11 "main" 8192 = Outcome.ret 8248 exTwo :=
      rfl
    rw [e2] at e
    cases e
    rfl
  rw [← this]; exact h

/-! ## The claims -/

/-- In every state reached without a release overwriting the header of a held
block, the walk from `root` along `next` ends at `NULL`, visits no block twice,
visits exactly the blocks currently held, `root->prev` is `NULL`, the `next` of the
last block is `NULL`, and `A.next = B` implies `B.prev = A`. -/
theorem clean_registry_wellformed (s : State) (h : ReachableClean s) :
    ∃ l, registry s = some l ∧ l.Nodup ∧ (liveAddrs s).Nodup ∧
      (∀ a, a ∈ l ↔ a ∈ liveAddrs s) ∧
      (s.root ≠ 0 → (s.hdr s.root).prev = 0) ∧
      (∀ a, l.getLast? = some a → (s.hdr a).next = 0) ∧
      (∀ a ∈ l, ∀ b, (s.hdr a).next = b → b ≠ 0 → b ∈ l ∧ (s.hdr b).prev = a) := by
  obtain ⟨l, hinv⟩ := reachable_inv s h
  refine ⟨l, inv_registry s l hinv, hinv.reg.nodup, hinv.perm.nodup_iff.mp hinv.reg.nodup,
    fun a => hinv.perm.mem_iff, ?_, links_last s.hdr l 0 hinv.reg.links, ?_⟩
  · intro hr
    have hre := hinv.reg.root_eq
    cases l with
    | nil => exact absurd hre hr
    | cons r t =>
      have e : s.root = r := hre
      rw [e]
      exact hinv.reg.links.1
  · intro a ha b hb hb0
    subst hb
    exact links_next_prev s.hdr l 0 hinv.reg.links a ha hb0

/-- C1 at a failing input: two blocks of 16 bytes are allocated at 4096 and at
4192 (regions [4096, 4176) and [4192, 4272)), the registry is 4192, 4096; then
the block at 4096 is released.  The wipe of `MemoryBlock_free` covers
[4152, 4232) and with it the fields `size`, `file`, `line`, `func` and `next` of
the block at 4192, which is still held and is the root: its `next` is no longer
`NULL` but 0xCCCCCCCCCCCCCCCC, the address of no held block, so the list from
`root` does not end at `NULL` after its last block and is not the list of held
blocks. -/
theorem C1_free_corrupts_registry :
    Reachable exPair ∧ registry exPair = some [4192, 4096] ∧
    Reachable exFreed ∧ liveAddrs exFreed = [4192] ∧ exFreed.root = 4192 ∧
    (exPair.hdr 4192).next = 4096 ∧ (delete exPair 4096).hdr 4192 =
      { size := 16, file := "main.c", line := 11, func := "main", next := 0, prev := 0 } ∧
    (exFreed.hdr 4192).size = 14757395258967641292 ∧
    (exFreed.hdr 4192).line = -858993460 ∧
    (exFreed.hdr 4192).next = 14757395258967641292 ∧ (exFreed.hdr 4192).prev = 0 ∧
    (exFreed.hdr 4192).next ≠ 0 ∧ (exFreed.hdr 4192).next ∉ liveAddrs exFreed ∧
    registry exFreed ≠ some [4192] :=
  ⟨reachable_exPair, by decide, reachable_exFreed, by decide, by decide, by decide,
    by decide, by decide, by decide, by decide, by decide, by decide, by decide, by decide⟩

/-- C3, as stated, fails: `Allocator_malloc` of 2^32 bytes from the initial state
returns and leaves `allocSize` at 0 instead of increasing it by 4294967296. -/
theorem C3_allocSize_not_increased :
    Allocator_malloc initState 4294967296 "main.c" 8 "main" 4096 = Outcome.ret 4152 exWrap ∧
      initState.allocSize = 0 ∧ exWrap.allocSize = 0 ∧
      exWrap.allocSize ≠ initState.allocSize + 4294967296 :=
  ⟨rfl, by decide, by decide, by decide⟩

/-- C3 (amended): when the provider answers `Allocator_malloc(size, ...)` with a
fresh block `p` in a well-formed state with registry `l`, the call returns
`p + sizeof(MemoryBlock)`, the registry becomes `p :: l`, the block records the
given size, file, line and func, `allocNum` and `mallocs` increase by 1, `reallocs`
and `frees` are unchanged, and `allocSize` becomes `allocSize + size` reduced
modulo 2^32 into the range of `int`: it increases by `size` whenever
`allocSize + size` is below 2^31. -/
theorem C3_malloc_post (s : State) (l : List Nat) (size : Nat) (file : String) (line : Int)
    (func : String) (p : Nat) (hinv : Inv s l) (hp0 : p ≠ 0) (hfresh : p ∉ liveAddrs s) :
    ∃ t, Allocator_malloc s size file line func p = Outcome.ret (p + sizeofMemoryBlock) t ∧
      registry s = some l ∧ registry t = some (p :: l) ∧
      (t.hdr p).size = size ∧ (t.hdr p).file = file ∧ (t.hdr p).line = line ∧
      (t.hdr p).func = func ∧
      t.allocNum = s.allocNum + 1 ∧
      t.allocSize = wrap32 (s.allocSize + size) ∧
      (s.allocSize + size < 2147483648 → t.allocSize = s.allocSize + size) ∧
      t.mallocs = s.mallocs + 1 ∧ t.reallocs = s.reallocs ∧ t.frees = s.frees := by
  obtain ⟨t, e, hinv2, ⟨d1, d2, d3, d4⟩, _, c1, c2, c3, c4, c5, _⟩ :=
    malloc_spec s l size file line func p hinv hp0 hfresh
  refine ⟨t, e, inv_registry s l hinv, inv_registry t _ hinv2, d1, d2, d3, d4, c1, ?_, ?_,
    c3, c4, c5⟩
  · rw [c2, addAssign_eq]
  · intro hlt
    rw [c2, addAssign_eq]
    have hr := wrap32_range (sizeSum s.hdr l)
    rw [← hinv.size] at hr
    exact wrap32_id _ (by omega) hlt

/-- Witness of C3 (amended): a second allocation, of 32 bytes at 8192. -/
theorem C3_malloc_post_witness :
    Inv exOne [4096] ∧ (8192 : Nat) ≠ 0 ∧ 8192 ∉ liveAddrs exOne ∧
    ∃ t, Allocator_malloc exOne 32 "main.c" 11 "main" 8192 =
        Outcome.ret (8192 + sizeofMemoryBlock) t ∧
      registry exOne = some [4096] ∧ registry t = some [8192, 4096] ∧
      (t.hdr 8192).size = 32 ∧ (t.hdr 8192).file = "main.c" ∧ (t.hdr 8192).line = 11 ∧
      (t.hdr 8192).func = "main" ∧
      t.allocNum = exOne.allocNum + 1 ∧
      t.allocSize = wrap32 (exOne.allocSize + (32 : Nat)) ∧
      (exOne.allocSize + (32 : Nat) < 2147483648 →
        t.allocSize = exOne.allocSize + (32 : Nat)) ∧
      t.mallocs = exOne.mallocs + 1 ∧ t.reallocs = exOne.reallocs ∧ t.frees = exOne.frees :=
  ⟨inv_exOne, by decide, by decide,
    C3_malloc_post exOne [4096] 32 "main.c" 11 "main" 8192 inv_exOne (by decide) (by decide)⟩

/-! ## Guard checking -/

theorem checkMark_none_iff (s : State) (self ptr : Nat) (file : String) (line : Int)
    (func : String) :
    MemoryBlock_checkMark s self ptr file line func = none ↔
      ∀ i, i < mark_size → s.mem (ptr + i) = mark_char := by
  unfold MemoryBlock_checkMark
  cases hf : (List.range mark_size).find? (fun i => decide (s.mem (ptr + i) ≠ mark_char)) with
  | none =>
    simp only [true_iff]
    intro i hi
    have := List.find?_eq_none.mp hf i (List.mem_range.mpr hi)
    simpa using this
  | some j =>
    refine ⟨fun h => (by cases h), ?_⟩
    intro hall
    exfalso
    have hmem := List.mem_of_find?_eq_some hf
    have hp := List.find?_some hf
    have := hall j (List.mem_range.mp hmem)
    simp [this] at hp

theorem checkMark_some (s : State) (self ptr : Nat) (file : String) (line : Int)
    (func : String) (d : Diag) (h : MemoryBlock_checkMark s self ptr file line func = some d) :
    ∃ addr byte blk, d = Diag.segfault file line func addr byte blk := by
  unfold MemoryBlock_checkMark at h
  cases hf : (List.range mark_size).find? (fun i => decide (s.mem (ptr + i) ≠ mark_char)) with
  | none => rw [hf] at h; cases h
  | some j =>
    rw [hf] at h
    simp only [Option.some.injEq] at h
    exact ⟨_, _, _, h.symm⟩

theorem check_none_iff (s : State) (b : Nat) (file : String) (line : Int) (func : String) :
    MemoryBlock_check s b file line func = none ↔ GuardsOK s b := by
  unfold MemoryBlock_check GuardsOK
  cases h1 : MemoryBlock_checkMark s b (toPtr b - mark_size) file line func with
  | none =>
    simp only
    rw [checkMark_none_iff] at h1 ⊢
    constructor
    · intro h2 i hi; exact ⟨h1 i hi, h2 i hi⟩
    · intro h2 i hi; exact (h2 i hi).2
  | some d =>
    refine ⟨fun h => (by cases h), ?_⟩
    intro hall
    exfalso
    have : MemoryBlock_checkMark s b (toPtr b - mark_size) file line func = none :=
      (checkMark_none_iff _ _ _ _ _ _).mpr (fun i hi => (hall i hi).1)
    rw [this] at h1
    cases h1

theorem check_some (s : State) (b : Nat) (file : String) (line : Int) (func : String)
    (d : Diag) (h : MemoryBlock_check s b file line func = some d) :
    ∃ addr byte blk, d = Diag.segfault file line func addr byte blk := by
  unfold MemoryBlock_check at h
  cases h1 : MemoryBlock_checkMark s b (toPtr b - mark_size) file line func with
  | none =>
    rw [h1] at h
    exact checkMark_some _ _ _ _ _ _ d h
  | some d2 =>
    rw [h1] at h
    simp only [Option.some.injEq] at h
    subst h
    exact checkMark_some _ _ _ _ _ _ d2 h1

theorem checkLoop_spec (s : State) (file : String) (line : Int) (func : String)
    (l : List Nat) :
    ∀ p fuel, Links s.hdr p l → (∀ a ∈ l, a ≠ 0) → l.length < fuel →
      ((∀ b ∈ l, GuardsOK s b) → checkLoop s file line func fuel (l.headD 0) = some none) ∧
      (¬ (∀ b ∈ l, GuardsOK s b) →
        ∃ addr byte blk, checkLoop s file line func fuel (l.headD 0) =
          some (some (Diag.segfault file line func addr byte blk))) := by
  induction l with
  | nil =>
    intro p fuel _ _ hf
    cases fuel with
    | zero => simp at hf
    | succ n =>
      refine ⟨fun _ => by simp [checkLoop], fun h => absurd (fun b hb => by cases hb) h⟩
  | cons a t ih =>
    intro p fuel hl hz hf
    cases fuel with
    | zero => simp at hf
    | succ n =>
      have ha : a ≠ 0 := hz a (List.mem_cons_self a t)
      obtain ⟨ih1, ih2⟩ := ih a n hl.2.2 (fun x hx => hz x (List.mem_cons_of_mem a hx))
        (by simp at hf; omega)
      have hstep : checkLoop s file line func (n + 1) a =
          match MemoryBlock_check s a file line func with
          | some d => some (some d)
          | none => checkLoop s file line func n (t.headD 0) := by
        rw [checkLoop, if_neg ha, hl.2.1]
      show (_ → checkLoop s file line func (n + 1) a = _) ∧
        (_ → ∃ addr byte blk, checkLoop s file line func (n + 1) a = _)
      rw [hstep]
      cases hc : MemoryBlock_check s a file line func with
      | none =>
        have hok : GuardsOK s a := (check_none_iff s a file line func).mp hc
        simp only
        constructor
        · intro hall
          exact ih1 (fun b hb => hall b (List.mem_cons_of_mem a hb))
        · intro hnot
          apply ih2
          intro hall
          apply hnot
          intro b hb
          rcases List.mem_cons.mp hb with e | e
          · rw [e]; exact hok
          · exact hall b e
      | some d =>
        simp only
        constructor
        · intro hall
          have := (check_none_iff s a file line func).mpr (hall a (List.mem_cons_self a t))
          rw [this] at hc
          cases hc
        · intro _
          obtain ⟨addr, byte, blk, e⟩ := check_some s a file line func d hc
          exact ⟨addr, byte, blk, by rw [e]⟩

theorem check_spec (s : State) (l : List Nat) (file : String) (line : Int) (func : String)
    (hinv : Inv s l) :
    ((∀ b ∈ l, GuardsOK s b) → Allocator_check s file line func = Outcome.ret () s) ∧
    (¬ (∀ b ∈ l, GuardsOK s b) → ∃ addr byte blk,
      Allocator_check s file line func =
        Outcome.halt (Diag.segfault file line func addr byte blk)) := by
  have hlen : l.length < s.live.length + 1 := by
    have := hinv.perm.length_eq
    unfold liveAddrs at this
    rw [List.length_map] at this
    omega
  obtain ⟨h1, h2⟩ := checkLoop_spec s file line func l 0 (s.live.length + 1) hinv.reg.links
    hinv.reg.nonzero hlen
  rw [← hinv.reg.root_eq] at h1 h2
  constructor
  · intro hall
    unfold Allocator_check
    rw [h1 hall]
  · intro hnot
    obtain ⟨addr, byte, blk, e⟩ := h2 hnot
    refine ⟨addr, byte, blk, ?_⟩
    unfold Allocator_check
    rw [e]

/-- C5: in a well-formed state with registry `l`, `Allocator_check` returns
normally if and only if for every block of the registry all 8 bytes before the
payload and all 8 bytes from payload offset `size` on equal 0xCD; otherwise it
aborts with the corruption report; and when it returns, the state (registry,
counters, memory) is the state before the call. -/
theorem C5_check_iff_guards (s : State) (l : List Nat) (file : String) (line : Int)
    (func : String) (hinv : Inv s l) :
    registry s = some l ∧
    ((∃ t, Allocator_check s file line func = Outcome.ret () t) ↔
      ∀ b ∈ l, ∀ i, i < 8 →
        s.mem (toPtr b - 8 + i) = 0xCD ∧ s.mem (toPtr b + (s.hdr b).size + i) = 0xCD) ∧
    (¬ (∃ t, Allocator_check s file line func = Outcome.ret () t) →
      ∃ addr byte blk, Allocator_check s file line func =
        Outcome.halt (Diag.segfault file line func addr byte blk)) ∧
    (∀ t, Allocator_check s file line func = Outcome.ret () t → t = s) := by
  obtain ⟨h1, h2⟩ := check_spec s l file line func hinv
  have key : (∃ t, Allocator_check s file line func = Outcome.ret () t) ↔
      ∀ b ∈ l, GuardsOK s b := by
    constructor
    · rintro ⟨t, ht⟩
      by_contra hnot
      obtain ⟨addr, byte, blk, e⟩ := h2 hnot
      rw [e] at ht
      cases ht
    · intro hall
      exact ⟨s, h1 hall⟩
  refine ⟨inv_registry s l hinv, key, ?_, ?_⟩
  · intro hno
    exact h2 (fun hall => hno (key.mpr hall))
  · intro t ht
    have hall := key.mp ⟨t, ht⟩
    rw [h1 hall] at ht
    cases ht
    rfl

/-- Witness of C5 at the state with two blocks. -/
theorem C5_check_iff_guards_witness :
    Inv exTwo [8192, 4096] ∧
    (registry exTwo = some [8192, 4096] ∧
    ((∃ t, Allocator_check exTwo "test.c" 20 "test" = Outcome.ret () t) ↔
      ∀ b ∈ [8192, 4096], ∀ i, i < 8 →
        exTwo.mem (toPtr b - 8 + i) = 0xCD ∧
        exTwo.mem (toPtr b + (exTwo.hdr b).size + i) = 0xCD) ∧
    (¬ (∃ t, Allocator_check exTwo "test.c" 20 "test" = Outcome.ret () t) →
      ∃ addr byte blk, Allocator_check exTwo "test.c" 20 "test" =
        Outcome.halt (Diag.segfault "test.c" 20 "test" addr byte blk)) ∧
    (∀ t, Allocator_check exTwo "test.c" 20 "test" = Outcome.ret () t → t = exTwo)) :=
  ⟨inv_exTwo, C5_check_iff_guards exTwo [8192, 4096] "test.c" 20 "test" inv_exTwo⟩

/-! ## Byte store after `Allocator_realloc` and `Allocator_free` -/

theorem realloc_payload_is_init (s : State) (mb size : Nat) (file : String) (line : Int)
    (func : String) (p v : Nat) (t : State)
    (h : Allocator_realloc s (toPtr mb) size file line func p = Outcome.ret v t) :
    ∀ i, i < size → t.mem (toPtr p + i) = init_char := by
  by_cases hp0 : p = 0
  · rw [hp0, realloc_null] at h
    cases h
  · unfold Allocator_realloc at h
    rw [if_pos (toPtr_ne_zero mb)] at h
    simp only [toMemoryBlock_toPtr] at h
    unfold MemoryBlock_realloc at h
    rw [if_neg hp0] at h
    simp only [Outcome.ret.injEq] at h
    obtain ⟨_, ht⟩ := h
    intro i hi
    rw [← ht, (insertAfter_frame _ _ _).1]
    simp only [MemoryBlock_init, memset]
    rw [if_pos ⟨by omega, by omega⟩]
    rfl

theorem free_mem (s : State) (mb : Nat) (hmb : mb ≠ 0) :
    (Allocator_free s (toPtr mb)).mem =
      memset s.mem (toPtr mb) init_char (regionBytes (s.hdr mb).size) :=
  (free_frame s mb hmb).2.2.2.2.2.2.2.2

/-- C4 at a failing input: a block of 1 byte at 4096 holds 0x41 in its payload
byte; the provider keeps that byte (in place, or copied to 8192); after
`Allocator_realloc(p, 1)` the payload byte is 0xCC, in place and moved alike. -/
theorem C4_realloc_overwrites_payload :
    exByte.mem (toPtr 4096) = 0x41 ∧
    Allocator_realloc exByte (toPtr 4096) 1 "main.c" 6 "main" 4096 =
      Outcome.ret (toPtr 4096) exByteSame ∧
    exByteSame.mem (toPtr 4096) = 0xCC ∧
    (provider_realloc (delete exByte 4096) 4096 (regionBytes 1) 8192).mem (toPtr 8192) = 0x41 ∧
    Allocator_realloc exByte (toPtr 4096) 1 "main.c" 6 "main" 8192 =
      Outcome.ret (toPtr 8192) exByteMoved ∧
    exByteMoved.mem (toPtr 8192) = 0xCC :=
  ⟨by decide, rfl, by decide, by decide, rfl, by decide⟩

/-- C7 at a failing input: two blocks of 0 bytes hold the adjacent regions
[4096, 4160) and [4160, 4224), and `Allocator_check` passes.  `Allocator_free` of
the first leaves its leading guard byte at 4144 as it was, and overwrites with
0xCC the bytes 4160 to 4215 outside its region, among them the leading guard
[4208, 4216) of the second block. -/
theorem C7_free_writes_outside_region :
    exAdj.live = [(4160, 64), (4096, 64)] ∧
    exAdj.mem 4144 = 0xCD ∧ (Allocator_free exAdj (toPtr 4096)).mem 4144 = 0xCD ∧
    exAdj.mem 4160 = 0 ∧ (Allocator_free exAdj (toPtr 4096)).mem 4160 = 0xCC ∧
    exAdj.mem 4208 = 0xCD ∧ (Allocator_free exAdj (toPtr 4096)).mem 4208 = 0xCC ∧
    (Allocator_free exAdj (toPtr 4096)).mem 4215 = 0xCC ∧
    Allocator_check exAdj "main.c" 12 "main" = Outcome.ret () exAdj :=
  ⟨by decide, by decide, by decide, by decide, by decide, by decide, by decide, by decide,
    rfl⟩

/-! ## Position, release, round trip, reallocation counters -/

/-- C6: reallocating the live block `mb`, which sits between `l1` and `l2` in the
registry, puts the resized block `p` in the same place: the registry becomes
`l1 ++ p :: l2`, and the `prev` of `p` is the former `prev` of `mb` (the last
block of `l1`, or `NULL` when `mb` was the head). -/
theorem C6_realloc_keeps_position (s : State) (l1 l2 : List Nat) (mb size : Nat)
    (file : String) (line : Int) (func : String) (p : Nat)
    (hinv : Inv s (l1 ++ mb :: l2)) (hp0 : p ≠ 0) (hp : p = mb ∨ p ∉ liveAddrs s) :
    ∃ t, Allocator_realloc s (toPtr mb) size file line func p = Outcome.ret (toPtr p) t ∧
      registry s = some (l1 ++ mb :: l2) ∧ registry t = some (l1 ++ p :: l2) ∧
      (s.hdr mb).prev = l1.getLastD 0 ∧ (t.hdr p).prev = l1.getLastD 0 ∧
      (t.hdr p).next = l2.headD 0 := by
  obtain ⟨t, e, hinv2, _⟩ := realloc_spec s l1 l2 mb size file line func p hinv hp0 hp
  obtain ⟨a1, _⟩ := links_mid s.hdr mb l1 l2 0 hinv.reg.links
  obtain ⟨b1, b2⟩ := links_mid t.hdr p l1 l2 0 hinv2.reg.links
  exact ⟨t, e, inv_registry s _ hinv, inv_registry t _ hinv2, a1, b1, b2⟩

/-- Witness of C6: the tail block of the two-block state is moved to 12288. -/
theorem C6_realloc_keeps_position_witness :
    Inv exTwo ([8192] ++ 4096 :: []) ∧ (12288 : Nat) ≠ 0 ∧
    (12288 = 4096 ∨ 12288 ∉ liveAddrs exTwo) ∧
    ∃ t, Allocator_realloc exTwo (toPtr 4096) 64 "main.c" 12 "main" 12288 =
        Outcome.ret (toPtr 12288) t ∧
      registry exTwo = some ([8192] ++ 4096 :: []) ∧
      registry t = some ([8192] ++ 12288 :: []) ∧
      (exTwo.hdr 4096).prev = [8192].getLastD 0 ∧ (t.hdr 12288).prev = [8192].getLastD 0 ∧
      (t.hdr 12288).next = ([] : List Nat).headD 0 :=
  ⟨inv_exTwo, by decide, by decide,
    C6_realloc_keeps_position exTwo [8192] [] 4096 64 "main.c" 12 "main" 12288 inv_exTwo
      (by decide) (by decide)⟩

theorem links_unique (h1 h2 : Nat → MemoryBlock) (l : List Nat) :
    ∀ p, Links h1 p l → Links h2 p l →
      ∀ a ∈ l, (h1 a).next = (h2 a).next ∧ (h1 a).prev = (h2 a).prev := by
  induction l with
  | nil => intro p _ _ a ha; cases ha
  | cons b t ih =>
    intro p g1 g2 a ha
    rcases List.mem_cons.mp ha with e | e
    · subst e
      exact ⟨g1.2.1.trans g2.2.1.symm, g1.1.trans g2.1.symm⟩
    · exact ih b g1.2.2 g2.2.2 a e

theorem MemoryBlock_ext (x y : MemoryBlock) (h1 : x.size = y.size) (h2 : x.file = y.file)
    (h3 : x.line = y.line) (h4 : x.func = y.func) (h5 : x.next = y.next)
    (h6 : x.prev = y.prev) : x = y := by
  cases x
  cases y
  simp only [MemoryBlock.mk.injEq]
  exact ⟨h1, h2, h3, h4, h5, h6⟩

theorem filter_fresh (live : List (Nat × Nat)) (p : Nat) (h : p ∉ live.map Prod.fst) :
    live.filter (fun r => decide (r.1 ≠ p)) = live := by
  apply List.filter_eq_self.mpr
  intro r hr
  have : r.1 ≠ p := by
    intro e
    apply h
    rw [← e]
    exact List.mem_map_of_mem Prod.fst hr
  simp [this]

/-- Round trip without the stray wipe: in a well-formed state with registry `l`,
`Allocator_malloc(size)` of a representable number of bytes, answered with a fresh
block `p` such that the wipe of its release reaches the header of no held block,
followed by `Allocator_free` of the returned pointer, leaves `allocNum`,
`allocSize`, the registry, the headers of its blocks, `root` and the table of
held regions as they were before the malloc. -/
theorem roundtrip_clean (s : State) (l : List Nat) (size : Nat) (file : String)
    (line : Int) (func : String) (p : Nat) (hinv : Inv s l) (hp0 : p ≠ 0)
    (hfresh : p ∉ liveAddrs s) (_hfit : sizeofMemoryBlock + size + mark_size < SIZE_RANGE)
    (hnc : ∀ b ∈ liveAddrs s,
      b + (sizeofMemoryBlock - mark_size) ≤ toPtr p ∨ toPtr p + regionBytes size ≤ b) :
    ∃ v t, Allocator_malloc s size file line func p = Outcome.ret v t ∧
      (Allocator_free t v).allocNum = s.allocNum ∧
      (Allocator_free t v).allocSize = s.allocSize ∧
      registry s = some l ∧ registry (Allocator_free t v) = some l ∧
      (∀ a ∈ l, (Allocator_free t v).hdr a = s.hdr a) ∧
      (Allocator_free t v).root = s.root ∧ (Allocator_free t v).live = s.live := by
  obtain ⟨t, e, hinv2, ⟨d1, _⟩, hother, c1, c2, _, _, _, c6⟩ :=
    malloc_spec s l size file line func p hinv hp0 hfresh
  have hinv2b : Inv t ([] ++ p :: l) := hinv2
  have hnc2 : NoClobber t p := by
    intro b hb hbp
    have hb2 : b ∈ liveAddrs s := by
      unfold liveAddrs at hb
      rw [c6, List.map_cons] at hb
      rcases List.mem_cons.mp hb with e2 | e2
      · exact absurd e2 hbp
      · exact e2
    rw [d1]
    exact hnc b hb2
  have hpl : p ∉ l := inv_not_mem s l hinv p hfresh
  have hlive : ∀ a ∈ l, a ∈ liveAddrs t := by
    intro a ha
    exact hinv2.perm.mem_iff.mp (List.mem_cons_of_mem p ha)
  obtain ⟨hinv3, hsd, f1, f2, _, _, _, f6, _⟩ := free_spec t [] l p hinv2b hnc2
  have hinv3b : Inv (Allocator_free t (toPtr p)) l := hinv3
  refine ⟨toPtr p, t, e, ?_, ?_, inv_registry s l hinv, inv_registry _ l hinv3b, ?_, ?_, ?_⟩
  · rw [f1, c1]; ring
  · rw [f2, c2, d1, subAssign_eq, addAssign_eq, wrap32_sub_left]
    have hr := wrap32_range (sizeSum s.hdr l)
    rw [← hinv.size] at hr
    have : s.allocSize + (size : Int) - (size : Int) = s.allocSize := by ring
    rw [this]
    exact wrap32_id _ hr.1 hr.2
  · intro a ha
    have hap : a ≠ p := fun e2 => hpl (e2 ▸ ha)
    obtain ⟨n1, n2⟩ := links_unique _ _ l 0 hinv3b.reg.links hinv.reg.links a ha
    obtain ⟨s1, s2, s3, s4⟩ := hsd a (hlive a ha)
    obtain ⟨o1, o2, o3, o4⟩ := hother a hap
    exact MemoryBlock_ext _ _ (s1.trans o1) (s2.trans o2) (s3.trans o3) (s4.trans o4) n1 n2
  · rw [hinv3b.reg.root_eq, hinv.reg.root_eq]
  · rw [f6, c6, List.filter_cons]
    simp only [ne_eq, not_true_eq_false, decide_False, Bool.false_eq_true, if_false]
    exact filter_fresh s.live p hfresh

/-- C9 at a failing input: one block of 16 bytes is held at 4192 and is the whole
registry.  `Allocator_malloc(16)` is answered at 4096 (region [4096, 4176)) and
the returned pointer is released at once.  `allocNum` and `allocSize` are as
before the malloc, but the wipe of `MemoryBlock_free` covers [4152, 4232): the
header of the block at 4192, which the malloc left as it was, has lost its
`size`, `file`, `line`, `func` and `next`, and the list from `root` is no longer
the registry of before the malloc. -/
theorem C9_roundtrip_corrupts_registry :
    Reachable exUpper ∧ registry exUpper = some [4192] ∧
    Allocator_malloc exUpper 16 "main.c" 11 "main" 4096 = Outcome.ret (toPtr 4096) exLower ∧
    exRound = Allocator_free exLower (toPtr 4096) ∧
    exRound.allocNum = exUpper.allocNum ∧ exRound.allocSize = exUpper.allocSize ∧
    exRound.root = exUpper.root ∧ liveAddrs exRound = liveAddrs exUpper ∧
    exUpper.hdr 4192 =
      { size := 16, file := "main.c", line := 10, func := "main", next := 0, prev := 0 } ∧
    (delete exLower 4096).hdr 4192 = exUpper.hdr 4192 ∧
    (exRound.hdr 4192).size = 14757395258967641292 ∧
    (exRound.hdr 4192).line = -858993460 ∧
    (exRound.hdr 4192).next = 14757395258967641292 ∧ (exRound.hdr 4192).prev = 0 ∧
    exRound.hdr 4192 ≠ exUpper.hdr 4192 ∧
    registry exRound ≠ registry exUpper :=
  ⟨reachable_exUpper, by decide, rfl, rfl, by decide, by decide, by decide, by decide,
    by decide, by decide, by decide, by decide, by decide, by decide, by decide, by decide⟩

/-- C10, as stated, fails: reallocating the block of 0 bytes to 2^31 bytes takes
`allocSize` from 0 to -2147483648, not to 0 + (2147483648 - 0). -/
theorem C10_allocSize_not_changed_by_difference :
    Reachable exZero ∧ registry exZero = some [4096] ∧ (exZero.hdr 4096).size = 0 ∧
      Allocator_realloc exZero (toPtr 4096) 2147483648 "main.c" 9 "main" 4096 =
        Outcome.ret (toPtr 4096) exZeroGrown ∧
      exZero.allocSize = 0 ∧ exZeroGrown.allocSize = -2147483648 ∧
      exZeroGrown.allocSize ≠ exZero.allocSize + (2147483648 - ((exZero.hdr 4096).size : Int)) :=
  ⟨reachable_exZero, by decide, by decide, rfl, by decide, by decide, by decide⟩

/-- C10 (amended): reallocating the live block `mb` to `size` bytes leaves
`allocNum`, `mallocs` and `frees` unchanged, increases `reallocs` by 1, records in
the resulting block `size` and the file, line and func of the call, and sets
`allocSize` to `allocSize - oldSize + size` reduced modulo 2^32 into the range of
`int`: a change by `size - oldSize` whenever that value lies in
[-2^31, 2^31). -/
theorem C10_realloc_counters (s : State) (l1 l2 : List Nat) (mb size : Nat)
    (file : String) (line : Int) (func : String) (p : Nat)
    (hinv : Inv s (l1 ++ mb :: l2)) (hp0 : p ≠ 0) (hp : p = mb ∨ p ∉ liveAddrs s) :
    ∃ t, Allocator_realloc s (toPtr mb) size file line func p = Outcome.ret (toPtr p) t ∧
      t.allocNum = s.allocNum ∧
      t.allocSize = wrap32 (s.allocSize + ((size : Int) - ((s.hdr mb).size : Int))) ∧
      (-2147483648 ≤ s.allocSize + ((size : Int) - ((s.hdr mb).size : Int)) →
        s.allocSize + ((size : Int) - ((s.hdr mb).size : Int)) < 2147483648 →
        t.allocSize = s.allocSize + ((size : Int) - ((s.hdr mb).size : Int))) ∧
      t.reallocs = s.reallocs + 1 ∧ t.mallocs = s.mallocs ∧ t.frees = s.frees ∧
      (t.hdr p).size = size ∧ (t.hdr p).file = file ∧ (t.hdr p).line = line ∧
      (t.hdr p).func = func := by
  obtain ⟨t, e, _, ⟨d1, d2, d3, d4⟩, _, c1, c2, c3, c4, c5, _⟩ :=
    realloc_spec s l1 l2 mb size file line func p hinv hp0 hp
  have hsz : t.allocSize = wrap32 (s.allocSize + ((size : Int) - ((s.hdr mb).size : Int))) := by
    rw [c2, addAssign_eq, subAssign_eq, wrap32_add_left]
    congr 1
    ring
  refine ⟨t, e, c1, hsz, ?_, c4, c3, c5, d1, d2, d3, d4⟩
  intro h1 h2
  rw [hsz]
  exact wrap32_id _ h1 h2

/-- Witness of C10 (amended): the tail block of the two-block state is resized to
64 bytes and moved to 12288. -/
theorem C10_realloc_counters_witness :
    Inv exTwo ([8192] ++ 4096 :: []) ∧ (12288 : Nat) ≠ 0 ∧
    (12288 = 4096 ∨ 12288 ∉ liveAddrs exTwo) ∧
    ∃ t, Allocator_realloc exTwo (toPtr 4096) 64 "main.c" 12 "main" 12288 =
        Outcome.ret (toPtr 12288) t ∧
      t.allocNum = exTwo.allocNum ∧
      t.allocSize = wrap32 (exTwo.allocSize + (((64 : Nat) : Int) - ((exTwo.hdr 4096).size : Int))) ∧
      (-2147483648 ≤ exTwo.allocSize + (((64 : Nat) : Int) - ((exTwo.hdr 4096).size : Int)) →
        exTwo.allocSize + (((64 : Nat) : Int) - ((exTwo.hdr 4096).size : Int)) < 2147483648 →
        t.allocSize = exTwo.allocSize + (((64 : Nat) : Int) - ((exTwo.hdr 4096).size : Int))) ∧
      t.reallocs = exTwo.reallocs + 1 ∧ t.mallocs = exTwo.mallocs ∧ t.frees = exTwo.frees ∧
      (t.hdr 12288).size = 64 ∧ (t.hdr 12288).file = "main.c" ∧ (t.hdr 12288).line = 12 ∧
      (t.hdr 12288).func = "main" :=
  ⟨inv_exTwo, by decide, by decide,
    C10_realloc_counters exTwo [8192] [] 4096 64 "main.c" 12 "main" 12288 inv_exTwo
      (by decide) (by decide)⟩

/-! ## Calls that return, without assumptions on the state -/

theorem malloc_ret (s : State) (size : Nat) (file : String) (line : Int) (func : String)
    (p : Nat) (hp0 : p ≠ 0) :
    ∃ t, Allocator_malloc s size file line func p = Outcome.ret (toPtr p) t ∧
      t.mem = memset (memset (memset s.mem (toPtr p - mark_size) mark_char mark_size)
        (toPtr p + size) mark_char mark_size) (toPtr p) init_char size ∧
      t.live = (p, regionBytes size) :: s.live ∧
      t.allocNum = s.allocNum + 1 ∧ t.allocSize = addAssign s.allocSize size ∧
      t.mallocs = s.mallocs + 1 ∧ t.reallocs = s.reallocs ∧ t.frees = s.frees := by
  unfold Allocator_malloc MemoryBlock_malloc
  rw [if_neg hp0]
  simp only
  refine ⟨_, rfl, ?_⟩
  obtain ⟨f1, f2, f3, f4, f5, f6, f7⟩ := insert_frame
    ({ MemoryBlock_init (provider_malloc s (regionBytes size) p) p size file line func with
      allocSize := addAssign (MemoryBlock_init (provider_malloc s (regionBytes size) p) p size
        file line func).allocSize size
      mallocs := (MemoryBlock_init (provider_malloc s (regionBytes size) p) p size
        file line func).mallocs + 1 } : State) p
  rw [f1, f2, f3, f4, f5, f6, f7]
  exact ⟨rfl, rfl, rfl, rfl, rfl, rfl, rfl⟩

theorem malloc_ret_inv (s t : State) (size : Nat) (file : String) (line : Int)
    (func : String) (p v : Nat)
    (h : Allocator_malloc s size file line func p = Outcome.ret v t) : p ≠ 0 := by
  intro hp0
  rw [hp0, malloc_null] at h
  cases h

theorem realloc_ret (s : State) (mb size : Nat) (file : String) (line : Int) (func : String)
    (p : Nat) (hp0 : p ≠ 0) :
    ∃ t, Allocator_realloc s (toPtr mb) size file line func p = Outcome.ret (toPtr p) t ∧
      t.live = (p, regionBytes size) :: s.live.filter (fun r => decide (r.1 ≠ mb)) ∧
      t.mallocs = s.mallocs ∧ t.reallocs = s.reallocs + 1 ∧ t.frees = s.frees ∧
      t.allocNum = s.allocNum := by
  unfold Allocator_realloc
  rw [if_pos (toPtr_ne_zero mb)]
  simp only [toMemoryBlock_toPtr]
  unfold MemoryBlock_realloc
  rw [if_neg hp0]
  simp only
  refine ⟨_, rfl, ?_⟩
  obtain ⟨f1, f2, f3, f4, f5, f6, f7⟩ := delete_frame s mb
  obtain ⟨g1, g2, g3, g4, g5, g6, g7⟩ := insertAfter_frame
    ({ MemoryBlock_init (provider_realloc
        { delete s mb with
          allocSize := subAssign (delete s mb).allocSize ((delete s mb).hdr mb).size }
        mb (regionBytes size) p) p size file line func with
      allocSize := addAssign (MemoryBlock_init (provider_realloc
        { delete s mb with
          allocSize := subAssign (delete s mb).allocSize ((delete s mb).hdr mb).size }
        mb (regionBytes size) p) p size file line func).allocSize size
      reallocs := (MemoryBlock_init (provider_realloc
        { delete s mb with
          allocSize := subAssign (delete s mb).allocSize ((delete s mb).hdr mb).size }
        mb (regionBytes size) p) p size file line func).reallocs + 1 } : State) p
    (s.hdr mb).prev
  rw [g2, g3, g5, g6, g7]
  refine ⟨?_, ?_, ?_, ?_, ?_⟩
  · show (p, regionBytes size) :: (delete s mb).live.filter (fun r => decide (r.1 ≠ mb)) = _
    rw [f2]
  · show (delete s mb).mallocs = _
    rw [f5]
  · show (delete s mb).reallocs + 1 = _
    rw [f6]
  · show (delete s mb).frees = _
    rw [f7]
  · show (delete s mb).allocNum + 1 = _
    rw [f3]; ring

/-! ## Reallocation of `NULL`, request size -/

/-- C11: `Allocator_realloc(NULL, n, provenance)` is `Allocator_malloc(n, provenance)`:
for the same starting state and the same answer of the provider the two calls
have the same outcome (the same returned pointer and the same resulting state:
registry, block contents, metadata, counters, or the same fatal report); when
the call returns, `mallocs` is incremented and `reallocs` is not. -/
theorem C11_realloc_null_is_malloc (s : State) (size : Nat) (file : String) (line : Int)
    (func : String) (p : Nat) :
    Allocator_realloc s 0 size file line func p = Allocator_malloc s size file line func p ∧
    ∀ v t, Allocator_realloc s 0 size file line func p = Outcome.ret v t →
      v = toPtr p ∧ t.mallocs = s.mallocs + 1 ∧ t.reallocs = s.reallocs := by
  refine ⟨realloc_null_ptr s size file line func p, ?_⟩
  intro v t h
  rw [realloc_null_ptr] at h
  have hp0 := malloc_ret_inv s t size file line func p v h
  obtain ⟨t2, e, _, _, _, _, c1, c2, _⟩ := malloc_ret s size file line func p hp0
  rw [e] at h
  cases h
  exact ⟨rfl, c1, c2⟩

/-- Witness of C11: reallocating `NULL` to 16 bytes in the initial state. -/
theorem C11_realloc_null_is_malloc_witness :
    Allocator_realloc initState 0 16 "main.c" 10 "main" 4096 =
      Allocator_malloc initState 16 "main.c" 10 "main" 4096 ∧
    Allocator_realloc initState 0 16 "main.c" 10 "main" 4096 = Outcome.ret 4152 exOne ∧
    (4152 = toPtr 4096 ∧ exOne.mallocs = initState.mallocs + 1 ∧
      exOne.reallocs = initState.reallocs) :=
  ⟨(C11_realloc_null_is_malloc initState 16 "main.c" 10 "main" 4096).1, rfl,
    (C11_realloc_null_is_malloc initState 16 "main.c" 10 "main" 4096).2 4152 exOne rfl⟩

theorem capOf_head (L : List (Nat × Nat)) (p n : Nat) : capOf ((p, n) :: L) p = n := by
  simp [capOf, List.lookup]

/-- C18, as stated, fails: for the request size 2^64 - 64 the sum
`sizeof(MemoryBlock) + size + 8` is 2^64 as an integer, and `Allocator_malloc` asks
the provider for 0 bytes. -/
theorem C18_request_wraps :
    Allocator_malloc initState 18446744073709551552 "main.c" 14 "main" 4096 =
      Outcome.ret 4152 exHuge ∧
    exHuge.live = [(4096, 0)] ∧
    sizeofMemoryBlock + 18446744073709551552 + mark_size = 18446744073709551616 ∧
    capOf exHuge.live 4096 ≠ sizeofMemoryBlock + 18446744073709551552 + mark_size :=
  ⟨rfl, by decide, by decide, by decide⟩

/-- C18 (amended): the number of bytes `Allocator_malloc` and `Allocator_realloc`
request from the provider is `sizeof(MemoryBlock) + size + 8` reduced modulo 2^64;
whenever that sum is below 2^64 it is the sum itself, and then the header, the
payload and the trailing guard end exactly where the acquired region ends. -/
theorem C18_request_size (s : State) (mb size : Nat) (file : String) (line : Int)
    (func : String) (p : Nat) (hp0 : p ≠ 0) :
    (∃ t, Allocator_malloc s size file line func p = Outcome.ret (toPtr p) t ∧
      capOf t.live p = (sizeofMemoryBlock + size + mark_size) % 18446744073709551616 ∧
      (sizeofMemoryBlock + size + mark_size < 18446744073709551616 →
        capOf t.live p = sizeofMemoryBlock + size + mark_size ∧
        p ≤ toPtr p - mark_size ∧ toPtr p + size + mark_size = p + capOf t.live p)) ∧
    (∃ t, Allocator_realloc s (toPtr mb) size file line func p = Outcome.ret (toPtr p) t ∧
      capOf t.live p = (sizeofMemoryBlock + size + mark_size) % 18446744073709551616 ∧
      (sizeofMemoryBlock + size + mark_size < 18446744073709551616 →
        capOf t.live p = sizeofMemoryBlock + size + mark_size ∧
        p ≤ toPtr p - mark_size ∧ toPtr p + size + mark_size = p + capOf t.live p)) := by
  have key : ∀ L : List (Nat × Nat),
      capOf ((p, regionBytes size) :: L) p =
        (sizeofMemoryBlock + size + mark_size) % 18446744073709551616 ∧
      (sizeofMemoryBlock + size + mark_size < 18446744073709551616 →
        capOf ((p, regionBytes size) :: L) p = sizeofMemoryBlock + size + mark_size ∧
        p ≤ toPtr p - mark_size ∧
        toPtr p + size + mark_size = p + capOf ((p, regionBytes size) :: L) p) := by
    intro L
    rw [capOf_head]
    refine ⟨rfl, ?_⟩
    intro hlt
    have e : regionBytes size = sizeofMemoryBlock + size + mark_size := by
      unfold regionBytes SIZE_RANGE
      exact Nat.mod_eq_of_lt hlt
    rw [e]
    unfold toPtr sizeofMemoryBlock mark_size
    omega
  constructor
  · obtain ⟨t, e, _, hl, _⟩ := malloc_ret s size file line func p hp0
    refine ⟨t, e, ?_⟩
    rw [hl]
    exact key _
  · obtain ⟨t, e, hl, _⟩ := realloc_ret s mb size file line func p hp0
    refine ⟨t, e, ?_⟩
    rw [hl]
    exact key _

/-- Witness of C18 (amended): in the one-block state, 16 bytes requested and
answered at 8192, and the block at 4096 reallocated to 16 bytes and moved to 8192. -/
theorem C18_request_size_witness :
    (8192 : Nat) ≠ 0 ∧
    ((∃ t, Allocator_malloc exOne 16 "main.c" 10 "main" 8192 = Outcome.ret (toPtr 8192) t ∧
      capOf t.live 8192 = (sizeofMemoryBlock + 16 + mark_size) % 18446744073709551616 ∧
      (sizeofMemoryBlock + 16 + mark_size < 18446744073709551616 →
        capOf t.live 8192 = sizeofMemoryBlock + 16 + mark_size ∧
        8192 ≤ toPtr 8192 - mark_size ∧
        toPtr 8192 + 16 + mark_size = 8192 + capOf t.live 8192)) ∧
    (∃ t, Allocator_realloc exOne (toPtr 4096) 16 "main.c" 10 "main" 8192 =
        Outcome.ret (toPtr 8192) t ∧
      capOf t.live 8192 = (sizeofMemoryBlock + 16 + mark_size) % 18446744073709551616 ∧
      (sizeofMemoryBlock + 16 + mark_size < 18446744073709551616 →
        capOf t.live 8192 = sizeofMemoryBlock + 16 + mark_size ∧
        8192 ≤ toPtr 8192 - mark_size ∧
        toPtr 8192 + 16 + mark_size = 8192 + capOf t.live 8192))) :=
  ⟨by decide, C18_request_size exOne 4096 16 "main.c" 10 "main" 8192 (by decide)⟩

/-! ## Stamping -/

theorem memset_in (mem : Nat → Nat) (dst c n a : Nat) (h1 : dst ≤ a) (h2 : a < dst + n) :
    memset mem dst c n a = c % 256 := by
  unfold memset
  rw [if_pos ⟨h1, h2⟩]

theorem memset_out (mem : Nat → Nat) (dst c n a : Nat) (h : a < dst ∨ dst + n ≤ a) :
    memset mem dst c n a = mem a := by
  unfold memset
  rw [if_neg]
  intro hc
  omega

/-- The byte store after the three `memset` calls of `MemoryBlock_init`. -/
theorem init_bytes (mem : Nat → Nat) (p size : Nat) :
    (∀ i, i < size →
      memset (memset (memset mem (toPtr p - mark_size) mark_char mark_size)
        (toPtr p + size) mark_char mark_size) (toPtr p) init_char size (toPtr p + i) =
        init_char) ∧
    (∀ i, i < mark_size →
      memset (memset (memset mem (toPtr p - mark_size) mark_char mark_size)
        (toPtr p + size) mark_char mark_size) (toPtr p) init_char size
        (toPtr p - mark_size + i) = mark_char) ∧
    (∀ i, i < mark_size →
      memset (memset (memset mem (toPtr p - mark_size) mark_char mark_size)
        (toPtr p + size) mark_char mark_size) (toPtr p) init_char size
        (toPtr p + size + i) = mark_char) ∧
    (∀ a, (a < toPtr p - mark_size ∨ toPtr p + size + mark_size ≤ a) →
      memset (memset (memset mem (toPtr p - mark_size) mark_char mark_size)
        (toPtr p + size) mark_char mark_size) (toPtr p) init_char size a = mem a) := by
  have hp : toPtr p = p + 56 := rfl
  have hm : mark_size = 8 := rfl
  refine ⟨?_, ?_, ?_, ?_⟩
  · intro i hi
    rw [memset_in _ _ _ _ _ (by omega) (by omega)]
    rfl
  · intro i hi
    rw [memset_out _ _ _ _ _ (Or.inl (by omega)),
      memset_out _ _ _ _ _ (Or.inl (by omega)),
      memset_in _ _ _ _ _ (by omega) (by omega)]
    rfl
  · intro i hi
    rw [memset_out _ _ _ _ _ (Or.inr (by omega)),
      memset_in _ _ _ _ _ (by omega) (by omega)]
    rfl
  · intro a ha
    rw [memset_out _ _ _ _ _ (by omega), memset_out _ _ _ _ _ (by omega),
      memset_out _ _ _ _ _ (by omega)]

/-- C12: right after `Allocator_malloc(size, ...)` returns `p`, which it does for
every size (0 included) whose request `sizeof(MemoryBlock) + size + 8` is
representable in `size_t` once the provider has answered, every payload byte
`p[0..size)` is 0xCC, every byte of the leading guard `p[-8..0)` and of the
trailing guard `p[size..size+8)` is 0xCD, the two patterns differ, the three
regions are pairwise disjoint, and every byte of them lies inside the acquired
region. -/
theorem C12_stamping (s : State) (size : Nat) (file : String) (line : Int) (func : String)
    (mb : Nat) (hp0 : mb ≠ 0)
    (hfit : sizeofMemoryBlock + size + mark_size < 18446744073709551616) :
    ∃ t, Allocator_malloc s size file line func mb = Outcome.ret (toPtr mb) t ∧
      (∀ i, i < size → t.mem (toPtr mb + i) = 0xCC) ∧
      (∀ i, i < 8 → t.mem (toPtr mb - 8 + i) = 0xCD) ∧
      (∀ i, i < 8 → t.mem (toPtr mb + size + i) = 0xCD) ∧
      init_char ≠ mark_char ∧
      (∀ i j, i < 8 → j < size → toPtr mb - 8 + i ≠ toPtr mb + j) ∧
      (∀ i j, i < 8 → j < 8 → toPtr mb - 8 + i ≠ toPtr mb + size + j) ∧
      (∀ i j, i < size → j < 8 → toPtr mb + i ≠ toPtr mb + size + j) ∧
      (∀ i, i < 8 → mb ≤ toPtr mb - 8 + i ∧ toPtr mb - 8 + i < mb + capOf t.live mb) ∧
      (∀ i, i < size → mb ≤ toPtr mb + i ∧ toPtr mb + i < mb + capOf t.live mb) ∧
      (∀ i, i < 8 → mb ≤ toPtr mb + size + i ∧
        toPtr mb + size + i < mb + capOf t.live mb) := by
  obtain ⟨t, e, hm, hl, _⟩ := malloc_ret s size file line func mb hp0
  obtain ⟨b1, b2, b3, _⟩ := init_bytes s.mem mb size
  have hcap : capOf t.live mb = 56 + size + 8 := by
    rw [hl, capOf_head]
    unfold regionBytes SIZE_RANGE
    exact Nat.mod_eq_of_lt hfit
  have hp : toPtr mb = mb + 56 := rfl
  refine ⟨t, e, ?_, ?_, ?_, by decide, ?_, ?_, ?_, ?_, ?_, ?_⟩
  · intro i hi; rw [hm]; exact b1 i hi
  · intro i hi; rw [hm]; exact b2 i hi
  · intro i hi; rw [hm]; exact b3 i hi
  · intro i j hi hj; omega
  · intro i j hi hj; omega
  · intro i j hi hj; omega
  · intro i hi; rw [hcap]; omega
  · intro i hi; rw [hcap]; omega
  · intro i hi; rw [hcap]; omega

/-- Witness of C12: a block of 16 bytes at 4096 in the initial state. -/
theorem C12_stamping_witness :
    (4096 : Nat) ≠ 0 ∧ sizeofMemoryBlock + 16 + mark_size < 18446744073709551616 ∧
    ∃ t, Allocator_malloc initState 16 "main.c" 10 "main" 4096 = Outcome.ret (toPtr 4096) t ∧
      (∀ i, i < 16 → t.mem (toPtr 4096 + i) = 0xCC) ∧
      (∀ i, i < 8 → t.mem (toPtr 4096 - 8 + i) = 0xCD) ∧
      (∀ i, i < 8 → t.mem (toPtr 4096 + 16 + i) = 0xCD) ∧
      init_char ≠ mark_char ∧
      (∀ i j, i < 8 → j < 16 → toPtr 4096 - 8 + i ≠ toPtr 4096 + j) ∧
      (∀ i j, i < 8 → j < 8 → toPtr 4096 - 8 + i ≠ toPtr 4096 + 16 + j) ∧
      (∀ i j, i < 16 → j < 8 → toPtr 4096 + i ≠ toPtr 4096 + 16 + j) ∧
      (∀ i, i < 8 → 4096 ≤ toPtr 4096 - 8 + i ∧
        toPtr 4096 - 8 + i < 4096 + capOf t.live 4096) ∧
      (∀ i, i < 16 → 4096 ≤ toPtr 4096 + i ∧ toPtr 4096 + i < 4096 + capOf t.live 4096) ∧
      (∀ i, i < 8 → 4096 ≤ toPtr 4096 + 16 + i ∧
        toPtr 4096 + 16 + i < 4096 + capOf t.live 4096) :=
  ⟨by decide, by decide,
    C12_stamping initState 16 "main.c" 10 "main" 4096 (by decide) (by decide)⟩

/-! ## Dump -/

theorem dumpLoop_links (s : State) (l : List Nat) :
    ∀ (p fuel : Nat), Links s.hdr p l → (∀ a ∈ l, a ≠ 0) → l.length < fuel →
      dumpLoop s fuel (l.headD 0) = some (l.map (MemoryBlock_print s)) := by
  induction l with
  | nil =>
    intro p fuel _ _ hf
    cases fuel with
    | zero => simp at hf
    | succ n => simp [dumpLoop]
  | cons a t ih =>
    intro p fuel hl hz hf
    cases fuel with
    | zero => simp at hf
    | succ n =>
      have ha : a ≠ 0 := hz a (List.mem_cons_self a t)
      have ht := ih a n hl.2.2 (fun x hx => hz x (List.mem_cons_of_mem a hx))
        (by simp at hf; omega)
      show dumpLoop s (n + 1) a = some ((a :: t).map (MemoryBlock_print s))
      rw [dumpLoop, if_neg ha, hl.2.1, ht]
      rfl

theorem dump_spec (s : State) (l : List Nat) (file : String) (line : Int) (func : String)
    (hinv : Inv s l) :
    Allocator_dump s file line func =
      Outcome.ret
        ({ file := file, line := line, func := func, num := s.allocNum, size := s.allocSize,
           mallocs := s.mallocs, reallocs := s.reallocs, frees := s.frees },
          l.map (MemoryBlock_print s)) s := by
  have hlen : l.length < s.live.length + 1 := by
    have := hinv.perm.length_eq
    unfold liveAddrs at this
    rw [List.length_map] at this
    omega
  have h := dumpLoop_links s l 0 (s.live.length + 1) hinv.reg.links hinv.reg.nonzero hlen
  rw [← hinv.reg.root_eq] at h
  unfold Allocator_dump
  rw [h]

theorem dump_ret_state (s t : State) (file : String) (line : Int) (func : String)
    (out : Summary × List BlockLine)
    (h : Allocator_dump s file line func = Outcome.ret out t) : t = s := by
  unfold Allocator_dump at h
  cases hd : dumpLoop s (s.live.length + 1) s.root with
  | none => rw [hd] at h; cases h
  | some ls =>
    rw [hd] at h
    simp only [Outcome.ret.injEq] at h
    exact h.2.symm

/-- C17: `Allocator_dump` is a pure read.  In a well-formed state it returns, in
the very state it was called in (registry, counters and memory unchanged); the
listing it writes is one line per block of the registry, in registry order,
computed from the state alone; so a second dump, from whatever call site, writes
the same listing. -/
theorem C17_dump_pure (s : State) (l : List Nat) (file : String) (line : Int)
    (func : String) (hinv : Inv s l) :
    (∀ out t, Allocator_dump s file line func = Outcome.ret out t → t = s) ∧
    ∃ out, Allocator_dump s file line func = Outcome.ret out s ∧
      out.2 = l.map (MemoryBlock_print s) ∧
      ∀ (file2 : String) (line2 : Int) (func2 : String),
        ∃ out2, Allocator_dump s file2 line2 func2 = Outcome.ret out2 s ∧ out2.2 = out.2 := by
  refine ⟨fun out t h => dump_ret_state s t file line func out h, ?_⟩
  refine ⟨_, dump_spec s l file line func hinv, rfl, ?_⟩
  intro file2 line2 func2
  exact ⟨_, dump_spec s l file2 line2 func2 hinv, rfl⟩

/-- Witness of C17 at the state with two blocks. -/
theorem C17_dump_pure_witness :
    Inv exTwo [8192, 4096] ∧
    ((∀ out t, Allocator_dump exTwo "main.c" 20 "main" = Outcome.ret out t → t = exTwo) ∧
    ∃ out, Allocator_dump exTwo "main.c" 20 "main" = Outcome.ret out exTwo ∧
      out.2 = [8192, 4096].map (MemoryBlock_print exTwo) ∧
      ∀ (file2 : String) (line2 : Int) (func2 : String),
        ∃ out2, Allocator_dump exTwo file2 line2 func2 = Outcome.ret out2 exTwo ∧
          out2.2 = out.2) :=
  ⟨inv_exTwo, C17_dump_pure exTwo [8192, 4096] "main.c" 20 "main" inv_exTwo⟩

/-! ## Live count -/

theorem allocAll_spec (rs : List Request) :
    ∀ (s : State) (l : List Nat), Inv s l →
      (∀ r ∈ rs, r.answer ≠ 0 ∧ r.answer ∉ liveAddrs s) → (rs.map Request.answer).Nodup →
      ∃ t, allocAll s rs = some t ∧ Inv t ((rs.map Request.answer).reverse ++ l) ∧
        t.mallocs = s.mallocs + (rs.length : Int) ∧ t.reallocs = s.reallocs ∧
        t.frees = s.frees ∧
        (∀ r ∈ rs, (t.hdr r.answer).size = r.size ∧ (t.hdr r.answer).file = r.file ∧
          (t.hdr r.answer).line = r.line ∧ (t.hdr r.answer).func = r.func) ∧
        (∀ a, a ∉ rs.map Request.answer → (t.hdr a).size = (s.hdr a).size ∧
          (t.hdr a).file = (s.hdr a).file ∧ (t.hdr a).line = (s.hdr a).line ∧
          (t.hdr a).func = (s.hdr a).func) := by
  induction rs with
  | nil =>
    intro s l hinv _ _
    refine ⟨s, rfl, ?_, ?_, rfl, rfl, ?_, ?_⟩
    · simpa using hinv
    · simp
    · intro r hr; cases hr
    · intro a _; exact ⟨rfl, rfl, rfl, rfl⟩
  | cons r rs ih =>
    intro s l hinv hfresh hnd
    obtain ⟨hr0, hrf⟩ := hfresh r (List.mem_cons_self r rs)
    obtain ⟨t1, e1, hinv1, hdata, hother, _, _, c3, c4, c5, c6⟩ :=
      malloc_spec s l r.size r.file r.line r.func r.answer hinv hr0 hrf
    have hnd2 : r.answer ∉ rs.map Request.answer ∧ (rs.map Request.answer).Nodup := by
      have : (r.answer :: rs.map Request.answer).Nodup := hnd
      exact List.nodup_cons.mp this
    have hfresh1 : ∀ r2 ∈ rs, r2.answer ≠ 0 ∧ r2.answer ∉ liveAddrs t1 := by
      intro r2 hr2
      obtain ⟨h0, hf⟩ := hfresh r2 (List.mem_cons_of_mem r hr2)
      refine ⟨h0, ?_⟩
      unfold liveAddrs
      rw [c6, List.map_cons, List.mem_cons, not_or]
      refine ⟨?_, hf⟩
      intro e
      have e : r2.answer = r.answer := e
      apply hnd2.1
      rw [← e]
      exact List.mem_map_of_mem Request.answer hr2
    obtain ⟨t, e, hinv2, d3, d4, d5, hd, ho⟩ := ih t1 (r.answer :: l) hinv1 hfresh1 hnd2.2
    refine ⟨t, ?_, ?_, ?_, ?_, ?_, ?_, ?_⟩
    · show (match Allocator_malloc s r.size r.file r.line r.func r.answer with
        | Outcome.ret _ t => allocAll t rs
        | Outcome.halt _ => none
        | Outcome.diverge => none) = some t
      rw [e1]
      exact e
    · have : ((r :: rs).map Request.answer).reverse ++ l =
          (rs.map Request.answer).reverse ++ (r.answer :: l) := by
        simp
      rw [this]
      exact hinv2
    · rw [d3, c3]
      simp only [List.length_cons]
      push_cast
      ring
    · rw [d4, c4]
    · rw [d5, c5]
    · intro r2 hr2
      rcases List.mem_cons.mp hr2 with e2 | e2
      · subst e2
        obtain ⟨o1, o2, o3, o4⟩ := ho r2.answer hnd2.1
        rw [o1, o2, o3, o4]
        exact hdata
      · exact hd r2 e2
    · intro a ha
      have ha2 : a ≠ r.answer ∧ a ∉ rs.map Request.answer := by
        rw [List.map_cons, List.mem_cons, not_or] at ha
        exact ha
      obtain ⟨o1, o2, o3, o4⟩ := ho a ha2.2
      obtain ⟨q1, q2, q3, q4⟩ := hother a ha2.1
      exact ⟨o1.trans q1, o2.trans q2, o3.trans q3, o4.trans q4⟩

theorem sizeSum_answers (hdr : Nat → MemoryBlock) (rs : List Request)
    (h : ∀ r ∈ rs, (hdr r.answer).size = r.size) :
    sizeSum hdr (rs.map Request.answer) = ((rs.map Request.size).sum : Nat) := by
  induction rs with
  | nil => simp [sizeSum]
  | cons r rs ih =>
    rw [List.map_cons, sizeSum_cons, h r (List.mem_cons_self r rs),
      ih (fun r2 hr2 => h r2 (List.mem_cons_of_mem r hr2))]
    simp

theorem sizeSum_reverse (hdr : Nat → MemoryBlock) (l : List Nat) :
    sizeSum hdr l.reverse = sizeSum hdr l := by
  unfold sizeSum
  rw [List.map_reverse, List.sum_reverse]

theorem toInt32_small (n : Nat) (h : n < 2147483648) : toInt32 n = (n : Int) := by
  unfold toInt32
  omega

theorem print_of_data (s : State) (r : Request)
    (h : (s.hdr r.answer).size = r.size ∧ (s.hdr r.answer).file = r.file ∧
      (s.hdr r.answer).line = r.line ∧ (s.hdr r.answer).func = r.func) :
    MemoryBlock_print s r.answer = r.blockLine := by
  unfold MemoryBlock_print Request.blockLine
  rw [h.1, h.2.1, h.2.2.1, h.2.2.2]

theorem map_print_answers (s : State) (rs : List Request)
    (h : ∀ r ∈ rs, (s.hdr r.answer).size = r.size ∧ (s.hdr r.answer).file = r.file ∧
      (s.hdr r.answer).line = r.line ∧ (s.hdr r.answer).func = r.func) :
    (rs.map Request.answer).map (MemoryBlock_print s) = rs.map Request.blockLine := by
  rw [List.map_map]
  apply List.map_congr_left
  intro r hr
  exact print_of_data s r (h r hr)

/-- C16, as stated, fails: after one allocation of 2^31 bytes the dump reports
size -2147483648, in the summary and in the line of the block, not 2147483648. -/
theorem C16_dump_size_wraps :
    allocAll initState
      [{ size := 2147483648, file := "main.c", line := 7, func := "main", answer := 4096 }] =
      some exBig ∧
    Allocator_dump exBig "main.c" 20 "main" =
      Outcome.ret
        ({ file := "main.c", line := 20, func := "main", num := 1, size := -2147483648,
           mallocs := 1, reallocs := 0, frees := 0 },
          [{ ptr := 4152, file := "main.c", line := 7, func := "main",
             size := -2147483648 }]) exBig ∧
    (-2147483648 : Int) ≠ ((2147483648 : Nat) : Int) :=
  ⟨rfl, rfl, by decide⟩

/-- C16 (amended): starting from the initial state, after `n` allocations answered
with distinct non-null blocks (no realloc, no free) `Allocator_dump` returns and
reports num = n, mallocs = n, reallocs = 0, frees = 0 and size = s1 + ... + sn
reduced modulo 2^32 into the range of `int` (the sum itself when it is below
2^31); it lists exactly `n` block lines in reverse allocation order, each with the
payload address and the provenance of its block and, when the size of the block
is below 2^31, with that size. -/
theorem C16_dump_after_allocs (rs : List Request) (file : String) (line : Int)
    (func : String) (h0 : ∀ r ∈ rs, r.answer ≠ 0) (hnd : (rs.map Request.answer).Nodup) :
    ∃ t out, allocAll initState rs = some t ∧
      Allocator_dump t file line func = Outcome.ret out t ∧
      out.1.file = file ∧ out.1.line = line ∧ out.1.func = func ∧
      out.1.num = (rs.length : Int) ∧
      out.1.size = wrap32 (((rs.map Request.size).sum : Nat) : Int) ∧
      ((rs.map Request.size).sum < 2147483648 →
        out.1.size = (((rs.map Request.size).sum : Nat) : Int)) ∧
      out.1.mallocs = (rs.length : Int) ∧ out.1.reallocs = 0 ∧ out.1.frees = 0 ∧
      out.2 = rs.reverse.map Request.blockLine ∧ out.2.length = rs.length ∧
      (∀ r ∈ rs, r.blockLine.ptr = r.answer + sizeofMemoryBlock ∧
        r.blockLine.file = r.file ∧ r.blockLine.line = r.line ∧
        r.blockLine.func = r.func ∧
        (r.size < 2147483648 → r.blockLine.size = (r.size : Int))) := by
  obtain ⟨t, e, hinv, c1, c2, c3, hd, _⟩ := allocAll_spec rs initState [] inv_init
    (fun r hr => ⟨h0 r hr, by simp [liveAddrs, initState]⟩) hnd
  rw [List.append_nil] at hinv
  have hsum : sizeSum t.hdr (rs.map Request.answer).reverse =
      (((rs.map Request.size).sum : Nat) : Int) := by
    rw [sizeSum_reverse]
    exact sizeSum_answers t.hdr rs (fun r hr => (hd r hr).1)
  have hsize : t.allocSize = wrap32 (((rs.map Request.size).sum : Nat) : Int) := by
    rw [hinv.size, hsum]
  have hlines : (rs.map Request.answer).reverse.map (MemoryBlock_print t) =
      rs.reverse.map Request.blockLine := by
    rw [← List.map_reverse]
    exact map_print_answers t rs.reverse (fun r hr => hd r (List.mem_reverse.mp hr))
  refine ⟨t, _, e, dump_spec t _ file line func hinv, rfl, rfl, rfl, ?_, hsize, ?_, ?_, c2,
    c3, hlines, ?_, ?_⟩
  · show t.allocNum = (rs.length : Int)
    rw [hinv.num]
    simp
  · intro hlt
    show t.allocSize = _
    rw [hsize]
    exact wrap32_id _ (by omega) (by omega)
  · show t.mallocs = (rs.length : Int)
    rw [c1]
    show (0 : Int) + _ = _
    ring
  · show ((rs.map Request.answer).reverse.map (MemoryBlock_print t)).length = rs.length
    simp
  · intro r _
    exact ⟨rfl, rfl, rfl, rfl, fun hlt => toInt32_small r.size hlt⟩

/-- Witness of C16 (amended): the sizes 16, 32, 8 give num 3, size 56, mallocs 3,
reallocs 0, frees 0, and the block of 8 bytes is listed first. -/
theorem C16_dump_after_allocs_witness :
    (∀ r ∈ exRequests, r.answer ≠ 0) ∧ (exRequests.map Request.answer).Nodup ∧
    (∃ t out, allocAll initState exRequests = some t ∧
      Allocator_dump t "main.c" 30 "main" = Outcome.ret out t ∧
      out.1.file = "main.c" ∧ out.1.line = 30 ∧ out.1.func = "main" ∧
      out.1.num = (exRequests.length : Int) ∧
      out.1.size = wrap32 (((exRequests.map Request.size).sum : Nat) : Int) ∧
      ((exRequests.map Request.size).sum < 2147483648 →
        out.1.size = (((exRequests.map Request.size).sum : Nat) : Int)) ∧
      out.1.mallocs = (exRequests.length : Int) ∧ out.1.reallocs = 0 ∧ out.1.frees = 0 ∧
      out.2 = exRequests.reverse.map Request.blockLine ∧
      out.2.length = exRequests.length ∧
      (∀ r ∈ exRequests, r.blockLine.ptr = r.answer + sizeofMemoryBlock ∧
        r.blockLine.file = r.file ∧ r.blockLine.line = r.line ∧
        r.blockLine.func = r.func ∧
        (r.size < 2147483648 → r.blockLine.size = (r.size : Int)))) ∧
    Allocator_dump exThree "main.c" 30 "main" =
      Outcome.ret
        ({ file := "main.c", line := 30, func := "main", num := 3, size := 56,
           mallocs := 3, reallocs := 0, frees := 0 },
          [{ ptr := 12344, file := "c.c", line := 3, func := "h", size := 8 },
           { ptr := 8248, file := "b.c", line := 2, func := "g", size := 32 },
           { ptr := 4152, file := "a.c", line := 1, func := "f", size := 16 }]) exThree :=
  ⟨by decide, by decide,
    C16_dump_after_allocs exRequests "main.c" 30 "main" (by decide) (by decide), rfl⟩

/-! ## Fatal reports -/

/-- C19 at a failing input: when the provider fails on a request of 2^32 bytes,
`Allocator_malloc` and `Allocator_realloc` stop the process with a report whose
size is 0, the low 32 bits that `%d` shows of the `size_t` argument. -/
theorem C19_report_size_truncated :
    Allocator_malloc initState 4294967296 "main.c" 8 "main" 0 =
      Outcome.halt (Diag.outOfMemory "main.c" 8 "main" 0) ∧
    Allocator_realloc exOne (toPtr 4096) 4294967296 "main.c" 8 "main" 0 =
      Outcome.halt (Diag.outOfMemory "main.c" 8 "main" 0) ∧
    ((0 : Int) ≠ ((4294967296 : Nat) : Int)) :=
  ⟨rfl, rfl, by decide⟩

/-! ## Guards after an allocation and after a payload write -/

theorem guards_of_check (s : State) (l : List Nat) (file : String) (line : Int)
    (func : String) (hinv : Inv s l) (t : State)
    (h : Allocator_check s file line func = Outcome.ret () t) : ∀ b ∈ l, GuardsOK s b := by
  by_contra hnot
  obtain ⟨addr, byte, blk, e⟩ := (check_spec s l file line func hinv).2 hnot
  rw [e] at h
  cases h

/-- C13: in every well-formed state in which all registered blocks have intact
guards, `Allocator_malloc(size, ...)` of a size (0 included) whose request
`sizeof(MemoryBlock) + size + 8` is representable in `size_t`, answered with a
region disjoint from the regions of the registered blocks, returns, and
`Allocator_check` right after it returns normally. -/
theorem C13_malloc_then_check (s : State) (l : List Nat) (size : Nat) (file : String)
    (line : Int) (func : String) (p : Nat) (cfile : String) (cline : Int) (cfunc : String)
    (hinv : Inv s l) (hok : ∀ b ∈ l, GuardsOK s b) (hp0 : p ≠ 0)
    (hfit : sizeofMemoryBlock + size + mark_size < 18446744073709551616)
    (hreg : FreshRegion s l p (regionBytes size)) :
    ∃ t, Allocator_malloc s size file line func p = Outcome.ret (toPtr p) t ∧
      Allocator_check t cfile cline cfunc = Outcome.ret () t := by
  have hrb : regionBytes size = 56 + size + 8 := by
    unfold regionBytes SIZE_RANGE
    exact Nat.mod_eq_of_lt hfit
  have hpl : p ∉ l := by
    intro hmem
    have := hreg p hmem
    rw [hrb] at this
    unfold blockBytes sizeofMemoryBlock mark_size at this
    omega
  have hfresh : p ∉ liveAddrs s := fun h => hpl (hinv.perm.mem_iff.mpr h)
  obtain ⟨t, e, hinv2, ⟨d1, _⟩, hother, _⟩ :=
    malloc_spec s l size file line func p hinv hp0 hfresh
  obtain ⟨t2, e2, hm, _⟩ := malloc_ret s size file line func p hp0
  rw [e] at e2
  cases e2
  obtain ⟨_, b2, b3, b4⟩ := init_bytes s.mem p size
  refine ⟨t, e, (check_spec t (p :: l) cfile cline cfunc hinv2).1 ?_⟩
  intro b hb i hi
  rcases List.mem_cons.mp hb with eb | eb
  · subst eb
    rw [d1, hm]
    exact ⟨b2 i hi, b3 i hi⟩
  · have hbp : b ≠ p := fun e3 => hpl (e3 ▸ eb)
    have hsz := (hother b hbp).1
    have hr := hreg b eb
    rw [hrb] at hr
    unfold blockBytes sizeofMemoryBlock mark_size at hr
    have hi8 : i < 8 := hi
    have hp : toPtr p = p + 56 := rfl
    have hb56 : toPtr b = b + 56 := rfl
    have hm8 : mark_size = 8 := rfl
    obtain ⟨g1, g2⟩ := hok b eb i hi
    rw [hsz, hm]
    constructor
    · rw [b4 _ (by omega)]
      exact g1
    · rw [b4 _ (by omega)]
      exact g2

/-- Witness of C13: 32 bytes requested in the one-block state and answered at
8192. -/
theorem C13_malloc_then_check_witness :
    Inv exOne [4096] ∧ (∀ b ∈ [4096], GuardsOK exOne b) ∧ (8192 : Nat) ≠ 0 ∧
    sizeofMemoryBlock + 32 + mark_size < 18446744073709551616 ∧
    FreshRegion exOne [4096] 8192 (regionBytes 32) ∧
    ∃ t, Allocator_malloc exOne 32 "main.c" 11 "main" 8192 = Outcome.ret (toPtr 8192) t ∧
      Allocator_check t "main.c" 16 "main" = Outcome.ret () t :=
  have hok : ∀ b ∈ [4096], GuardsOK exOne b :=
    guards_of_check exOne [4096] "main.c" 16 "main" inv_exOne exOne rfl
  have hreg : FreshRegion exOne [4096] 8192 (regionBytes 32) := by
    intro b hb
    rw [List.mem_singleton] at hb
    subst hb
    decide
  ⟨inv_exOne, hok, by decide, by decide, hreg,
    C13_malloc_then_check exOne [4096] 32 "main.c" 11 "main" 8192 "main.c" 16 "main"
      inv_exOne hok (by decide) (by decide) hreg⟩

/-- C15: in a well-formed state whose registered blocks have pairwise disjoint
regions, a write of any byte to `payload[i]` of a registered block, `i < size`,
changes no guard byte of any registered block; if `Allocator_check` returned
normally before the write, it returns normally after it. -/
theorem C15_payload_write_keeps_guards (s : State) (l : List Nat) (b i v : Nat)
    (cfile : String) (cline : Int) (cfunc : String)
    (hinv : Inv s l) (hsep : Separate s l) (hb : b ∈ l) (hi : i < (s.hdr b).size) :
    (∀ c ∈ l, ∀ j, j < 8 →
      (store s (toPtr b + i) v).mem (toPtr c - 8 + j) = s.mem (toPtr c - 8 + j) ∧
      (store s (toPtr b + i) v).mem (toPtr c + (s.hdr c).size + j) =
        s.mem (toPtr c + (s.hdr c).size + j)) ∧
    (Allocator_check s cfile cline cfunc = Outcome.ret () s →
      Allocator_check (store s (toPtr b + i) v) cfile cline cfunc =
        Outcome.ret () (store s (toPtr b + i) v)) := by
  have hkeep : ∀ c ∈ l, ∀ j, j < 8 →
      (store s (toPtr b + i) v).mem (toPtr c - 8 + j) = s.mem (toPtr c - 8 + j) ∧
      (store s (toPtr b + i) v).mem (toPtr c + (s.hdr c).size + j) =
        s.mem (toPtr c + (s.hdr c).size + j) := by
    intro c hc j hj
    have hpb : toPtr b = b + 56 := rfl
    have hpc : toPtr c = c + 56 := rfl
    have hne : toPtr c - 8 + j ≠ toPtr b + i ∧ toPtr c + (s.hdr c).size + j ≠ toPtr b + i := by
      by_cases hcb : c = b
      · subst hcb
        constructor <;> omega
      · have := hsep c hc b hb hcb
        unfold blockBytes sizeofMemoryBlock mark_size at this
        constructor <;> omega
    unfold store
    simp only
    rw [if_neg hne.1, if_neg hne.2]
    exact ⟨rfl, rfl⟩
  refine ⟨hkeep, ?_⟩
  intro hret
  have hok := guards_of_check s l cfile cline cfunc hinv s hret
  apply (check_spec (store s (toPtr b + i) v) l cfile cline cfunc (inv_store s l _ _ hinv)).1
  intro c hc j hj
  obtain ⟨k1, k2⟩ := hkeep c hc j hj
  obtain ⟨g1, g2⟩ := hok c hc j hj
  exact ⟨k1.trans g1, k2.trans g2⟩

/-- Witness of C15: the last payload byte of the 16-byte block of the two-block
state is overwritten with 0xCD. -/
theorem C15_payload_write_keeps_guards_witness :
    Inv exTwo [8192, 4096] ∧ Separate exTwo [8192, 4096] ∧ 4096 ∈ [8192, 4096] ∧
    15 < (exTwo.hdr 4096).size ∧
    ((∀ c ∈ [8192, 4096], ∀ j, j < 8 →
      (store exTwo (toPtr 4096 + 15) 0xCD).mem (toPtr c - 8 + j) =
        exTwo.mem (toPtr c - 8 + j) ∧
      (store exTwo (toPtr 4096 + 15) 0xCD).mem (toPtr c + (exTwo.hdr c).size + j) =
        exTwo.mem (toPtr c + (exTwo.hdr c).size + j)) ∧
    (Allocator_check exTwo "main.c" 16 "main" = Outcome.ret () exTwo →
      Allocator_check (store exTwo (toPtr 4096 + 15) 0xCD) "main.c" 16 "main" =
        Outcome.ret () (store exTwo (toPtr 4096 + 15) 0xCD))) :=
  have hsep : Separate exTwo [8192, 4096] := by
    intro a ha b hb hab
    simp only [List.mem_cons, List.mem_singleton, List.not_mem_nil, or_false] at ha hb
    rcases ha with rfl | rfl <;> rcases hb with rfl | rfl
    · exact absurd rfl hab
    · decide
    · decide
    · exact absurd rfl hab
  ⟨inv_exTwo, hsep, by decide, by decide,
    C15_payload_write_keeps_guards exTwo [8192, 4096] 4096 15 0xCD "main.c" 16 "main"
      inv_exTwo hsep (by decide) (by decide)⟩

/-! ## The corruption report -/

theorem find_range (P : Nat → Bool) (n i : Nat) (hi : i < n)
    (hprev : ∀ j, j < i → P j = false) (hP : P i = true) :
    (List.range n).find? P = some i := by
  induction n with
  | zero => omega
  | succ n ih =>
    rw [List.range_succ, List.find?_append]
    by_cases h : i < n
    · rw [ih h]; rfl
    · have e : i = n := by omega
      subst e
      have hnone : (List.range i).find? P = none := by
        rw [List.find?_eq_none]
        intro x hx
        rw [hprev x (List.mem_range.mp hx)]
        simp
      rw [hnone]
      simp [List.find?, hP]

/-- The loop of `MemoryBlock_checkMark` aborts at the lowest offset whose byte is
not the guard byte, and reports that address and that byte. -/
theorem checkMark_at (s : State) (self ptr : Nat) (file : String) (line : Int)
    (func : String) (i : Nat) (hi : i < mark_size)
    (hprev : ∀ j, j < i → s.mem (ptr + j) = mark_char)
    (hbad : s.mem (ptr + i) ≠ mark_char) :
    MemoryBlock_checkMark s self ptr file line func =
      some (Diag.segfault file line func (ptr + i) (s.mem (ptr + i))
        (MemoryBlock_print s self)) := by
  unfold MemoryBlock_checkMark
  have h := find_range (fun i => decide (s.mem (ptr + i) ≠ mark_char)) mark_size i hi
    (fun j hj => by simp [hprev j hj]) (by simp [hbad])
  rw [h]

theorem check_at_leading (s : State) (b : Nat) (file : String) (line : Int) (func : String)
    (i : Nat) (hi : i < mark_size)
    (hprev : ∀ j, j < i → s.mem (toPtr b - mark_size + j) = mark_char)
    (hbad : s.mem (toPtr b - mark_size + i) ≠ mark_char) :
    MemoryBlock_check s b file line func =
      some (Diag.segfault file line func (toPtr b - mark_size + i)
        (s.mem (toPtr b - mark_size + i)) (MemoryBlock_print s b)) := by
  unfold MemoryBlock_check
  rw [checkMark_at s b _ file line func i hi hprev hbad]

theorem check_at_trailing (s : State) (b : Nat) (file : String) (line : Int) (func : String)
    (i : Nat) (hi : i < mark_size)
    (hlead : ∀ j, j < mark_size → s.mem (toPtr b - mark_size + j) = mark_char)
    (hprev : ∀ j, j < i → s.mem (toPtr b + (s.hdr b).size + j) = mark_char)
    (hbad : s.mem (toPtr b + (s.hdr b).size + i) ≠ mark_char) :
    MemoryBlock_check s b file line func =
      some (Diag.segfault file line func (toPtr b + (s.hdr b).size + i)
        (s.mem (toPtr b + (s.hdr b).size + i)) (MemoryBlock_print s b)) := by
  unfold MemoryBlock_check
  rw [(checkMark_none_iff s b _ file line func).mpr hlead]
  exact checkMark_at s b _ file line func i hi hprev hbad

/-- The loop of `Allocator_check` aborts at the first block of the registry whose
check aborts. -/
theorem checkLoop_first (s : State) (file : String) (line : Int) (func : String)
    (b : Nat) (l2 : List Nat) (d : Diag) (hd : MemoryBlock_check s b file line func = some d)
    (l1 : List Nat) :
    ∀ p fuel, Links s.hdr p (l1 ++ b :: l2) → (∀ a ∈ l1 ++ b :: l2, a ≠ 0) →
      (l1 ++ b :: l2).length < fuel → (∀ c ∈ l1, GuardsOK s c) →
      checkLoop s file line func fuel ((l1 ++ b :: l2).headD 0) = some (some d) := by
  induction l1 with
  | nil =>
    intro p fuel hl hz hf _
    cases fuel with
    | zero => simp at hf
    | succ n =>
      have hb0 : b ≠ 0 := hz b (by simp)
      show checkLoop s file line func (n + 1) b = some (some d)
      rw [checkLoop, if_neg hb0, hd]
  | cons a t ih =>
    intro p fuel hl hz hf hok
    cases fuel with
    | zero => simp at hf
    | succ n =>
      have ha0 : a ≠ 0 := hz a (by simp)
      have hrec := ih a n hl.2.2 (fun x hx => hz x (List.mem_cons_of_mem a hx))
        (by simp at hf ⊢; omega) (fun c hc => hok c (List.mem_cons_of_mem a hc))
      have hca : MemoryBlock_check s a file line func = none :=
        (check_none_iff s a file line func).mpr (hok a (List.mem_cons_self a t))
      show checkLoop s file line func (n + 1) a = some (some d)
      rw [checkLoop, if_neg ha0, hca]
      simp only
      rw [hl.2.1]
      exact hrec

theorem check_first (s : State) (l1 l2 : List Nat) (b : Nat) (file : String) (line : Int)
    (func : String) (d : Diag) (hinv : Inv s (l1 ++ b :: l2))
    (hok : ∀ c ∈ l1, GuardsOK s c) (hd : MemoryBlock_check s b file line func = some d) :
    Allocator_check s file line func = Outcome.halt d := by
  have hlen : (l1 ++ b :: l2).length < s.live.length + 1 := by
    have := hinv.perm.length_eq
    unfold liveAddrs at this
    rw [List.length_map] at this
    omega
  have h := checkLoop_first s file line func b l2 d hd l1 0 (s.live.length + 1)
    hinv.reg.links hinv.reg.nonzero hlen hok
  rw [← hinv.reg.root_eq] at h
  unfold Allocator_check
  rw [h]

/-- The scenario of C14 with the size as `%d` shows it: all guards intact, then
the byte at payload offset `size` of the registered block `b` is overwritten with
a byte `v` other than 0xCD; the check aborts and reports the address
`payload + size`, the byte `v`, the provenance of the check call, and the line of
`MemoryBlock_print` for `b`. -/
theorem check_reports_trailing (s : State) (l1 l2 : List Nat) (b v : Nat) (file : String)
    (line : Int) (func : String) (hinv : Inv s (l1 ++ b :: l2))
    (hsep : Separate s (l1 ++ b :: l2)) (hok : ∀ c ∈ l1 ++ b :: l2, GuardsOK s c)
    (hv : v < 256) (hv2 : v ≠ mark_char) :
    Allocator_check (store s (toPtr b + (s.hdr b).size) v) file line func =
      Outcome.halt (Diag.segfault file line func (toPtr b + (s.hdr b).size) v
        { ptr := toPtr b, file := (s.hdr b).file, line := (s.hdr b).line,
          func := (s.hdr b).func, size := toInt32 (s.hdr b).size }) := by
  have hbm : b ∈ l1 ++ b :: l2 := by simp
  have hpb : toPtr b = b + 56 := rfl
  have hm8 : mark_size = 8 := rfl
  have hmemat : (store s (toPtr b + (s.hdr b).size) v).mem (toPtr b + (s.hdr b).size) = v := by
    unfold store
    simp only [if_true]
    exact Nat.mod_eq_of_lt hv
  have hmemne : ∀ x, x ≠ toPtr b + (s.hdr b).size →
      (store s (toPtr b + (s.hdr b).size) v).mem x = s.mem x := by
    intro x hx
    unfold store
    simp only
    rw [if_neg hx]
  have hpre : ∀ c ∈ l1, GuardsOK (store s (toPtr b + (s.hdr b).size) v) c := by
    intro c hc j hj
    have hcm : c ∈ l1 ++ b :: l2 := List.mem_append_left _ hc
    have hcb : c ≠ b := by
      have hnd := hinv.reg.nodup
      rw [List.nodup_append] at hnd
      rintro rfl
      exact hnd.2.2 hc (by simp)
    have hs := hsep c hcm b hbm hcb
    unfold blockBytes sizeofMemoryBlock mark_size at hs
    have hpc : toPtr c = c + 56 := rfl
    have hj8 : j < 8 := hj
    obtain ⟨g1, g2⟩ := hok c hcm j hj
    show (store s (toPtr b + (s.hdr b).size) v).mem (toPtr c - mark_size + j) = mark_char ∧
      (store s (toPtr b + (s.hdr b).size) v).mem (toPtr c + (s.hdr c).size + j) = mark_char
    rw [hmemne _ (by omega), hmemne _ (by omega)]
    exact ⟨g1, g2⟩
  have hd : MemoryBlock_check (store s (toPtr b + (s.hdr b).size) v) b file line func =
      some (Diag.segfault file line func (toPtr b + (s.hdr b).size) v
        { ptr := toPtr b, file := (s.hdr b).file, line := (s.hdr b).line,
          func := (s.hdr b).func, size := toInt32 (s.hdr b).size }) := by
    have h := check_at_trailing (store s (toPtr b + (s.hdr b).size) v) b file line func 0
      (by decide)
      (fun j hj => by
        have hj8 : j < 8 := hj
        rw [hmemne _ (by omega)]
        exact (hok b hbm j hj).1)
      (fun j hj => absurd hj (Nat.not_lt_zero j))
      (by
        show (store s (toPtr b + (s.hdr b).size) v).mem (toPtr b + (s.hdr b).size + 0) ≠ _
        rw [Nat.add_zero, hmemat]
        exact hv2)
    have e0 : toPtr b + ((store s (toPtr b + (s.hdr b).size) v).hdr b).size + 0 =
        toPtr b + (s.hdr b).size := rfl
    rw [e0, hmemat] at h
    exact h
  exact check_first _ l1 l2 b file line func _ (inv_store s _ _ _ hinv) hpre hd

/-- C14 at a failing input: the block of 2^31 bytes has its first trailing guard
byte overwritten with 0; the check aborts and reports the address and the byte,
but the size in the line of the owning block is -2147483648, the low 32 bits
that `%d` shows of the `size_t` field, not the recorded size 2147483648.  For
the block of 16 bytes the same report carries the size 16. -/
theorem C14_report_size_truncated :
    (exBig.hdr 4096).size = 2147483648 ∧
    Allocator_check exBig "main.c" 16 "main" = Outcome.ret () exBig ∧
    Allocator_check exBigCorrupt "main.c" 16 "main" =
      Outcome.halt (Diag.segfault "main.c" 16 "main" (4152 + 2147483648) 0
        { ptr := 4152, file := "main.c", line := 7, func := "main",
          size := -2147483648 }) ∧
    Allocator_check exTwoCorrupt "main.c" 16 "main" =
      Outcome.halt (Diag.segfault "main.c" 16 "main" (4152 + 16) 0x41
        { ptr := 4152, file := "main.c", line := 10, func := "main", size := 16 }) :=
  ⟨by decide, rfl, rfl, rfl⟩

/-! ## Disjoint regions are kept by a provider that hands out disjoint regions -/

theorem separate_malloc (s : State) (l : List Nat) (size : Nat) (file : String) (line : Int)
    (func : String) (p : Nat) (t : State) (hinv : Inv s l) (hsep : Separate s l)
    (hp0 : p ≠ 0) (hfresh : p ∉ liveAddrs s) (hreg : FreshRegion s l p (blockBytes size))
    (h : Allocator_malloc s size file line func p = Outcome.ret (toPtr p) t) :
    Separate t (p :: l) := by
  obtain ⟨t2, e, _, ⟨d1, _⟩, hother, _⟩ :=
    malloc_spec s l size file line func p hinv hp0 hfresh
  rw [e] at h
  cases h
  have hpl : p ∉ l := inv_not_mem s l hinv p hfresh
  intro a ha b hb hab
  rcases List.mem_cons.mp ha with ea | ea <;> rcases List.mem_cons.mp hb with eb | eb
  · exact absurd (ea.trans eb.symm) hab
  · subst ea
    have hbp : b ≠ a := fun e2 => hpl (e2 ▸ eb)
    rw [d1, (hother b hbp).1]
    exact hreg b eb
  · subst eb
    have hap : a ≠ b := fun e2 => hpl (e2 ▸ ea)
    rw [d1, (hother a hap).1]
    exact (hreg a ea).symm
  · have hap : a ≠ p := fun e2 => hpl (e2 ▸ ea)
    have hbp : b ≠ p := fun e2 => hpl (e2 ▸ eb)
    rw [(hother a hap).1, (hother b hbp).1]
    exact hsep a ea b eb hab

theorem separate_free (s : State) (l1 l2 : List Nat) (mb : Nat)
    (hinv : Inv s (l1 ++ mb :: l2)) (hnc : NoClobber s mb)
    (hsep : Separate s (l1 ++ mb :: l2)) :
    Separate (Allocator_free s (toPtr mb)) (l1 ++ l2) := by
  obtain ⟨_, hsd, _⟩ := free_spec s l1 l2 mb hinv hnc
  have hsub : ∀ a ∈ l1 ++ l2, a ∈ l1 ++ mb :: l2 := by
    intro a ha
    rcases List.mem_append.mp ha with c | c
    · exact List.mem_append_left _ c
    · exact List.mem_append_right _ (List.mem_cons_of_mem mb c)
  intro a ha b hb hab
  rw [(hsd a (hinv.perm.mem_iff.mp (hsub a ha))).1, (hsd b (hinv.perm.mem_iff.mp (hsub b hb))).1]
  exact hsep a (hsub a ha) b (hsub b hb) hab

theorem separate_realloc (s : State) (l1 l2 : List Nat) (mb size : Nat) (file : String)
    (line : Int) (func : String) (p : Nat) (t : State) (hinv : Inv s (l1 ++ mb :: l2))
    (hsep : Separate s (l1 ++ mb :: l2)) (hp0 : p ≠ 0) (hp : p = mb ∨ p ∉ liveAddrs s)
    (hreg : FreshRegion s (l1 ++ l2) p (blockBytes size))
    (h : Allocator_realloc s (toPtr mb) size file line func p = Outcome.ret (toPtr p) t) :
    Separate t (l1 ++ p :: l2) := by
  obtain ⟨t2, e, hinv2, ⟨d1, _⟩, hother, _⟩ :=
    realloc_spec s l1 l2 mb size file line func p hinv hp0 hp
  rw [e] at h
  cases h
  have hnd2 := hinv2.reg.nodup
  have hpl : ∀ a ∈ l1 ++ l2, a ≠ p := by
    intro a ha
    rw [List.nodup_append] at hnd2
    rcases List.mem_append.mp ha with c | c
    · rintro rfl; exact hnd2.2.2 c (by simp)
    · rintro rfl; exact (List.nodup_cons.mp hnd2.2.1).1 c
  have hsub : ∀ a ∈ l1 ++ l2, a ∈ l1 ++ mb :: l2 := by
    intro a ha
    rcases List.mem_append.mp ha with c | c
    · exact List.mem_append_left _ c
    · exact List.mem_append_right _ (List.mem_cons_of_mem mb c)
  have hcase : ∀ a ∈ l1 ++ p :: l2, a = p ∨ a ∈ l1 ++ l2 := by
    intro a ha
    rcases List.mem_append.mp ha with c | c
    · exact Or.inr (List.mem_append_left _ c)
    · rcases List.mem_cons.mp c with c2 | c2
      · exact Or.inl c2
      · exact Or.inr (List.mem_append_right _ c2)
  intro a ha b hb hab
  rcases hcase a ha with ea | ea <;> rcases hcase b hb with eb | eb
  · exact absurd (ea.trans eb.symm) hab
  · subst ea
    rw [d1, (hother b (hpl b eb)).1]
    exact hreg b eb
  · subst eb
    rw [d1, (hother a (hpl a ea)).1]
    exact (hreg a ea).symm
  · rw [(hother a (hpl a ea)).1, (hother b (hpl b eb)).1]
    exact hsep a (hsub a ea) b (hsub b eb) hab

end Bee
